import Mathlib

/-!
Verification development for the Facebook/Mistral MCP server repository
(`Team-2_Mistral_AI_MCP_Hackathon`).

The Python code is shallowly embedded: JSON values (what `requests.Response.json()`
and `json.load` produce, and what the functions build) are modelled by the
inductive type `JVal`; Python operations that can raise are modelled in
`Except PyErr`; a Python `try/except` wrapper becomes an explicit `match` on the
`Except` result.  JSON numbers are modelled as integers (the analytics counters
the code handles are integral; floats are outside the model).
-/

/-- A JSON value: the result of `json.load` / `response.json()` and the shape of
the records the code builds.  Objects are insertion-ordered association lists,
matching Python `dict` insertion order. -/
inductive JVal where
  | jnull : JVal
  | jbool : Bool → JVal
  | jnum : Int → JVal
  | jstr : String → JVal
  | jarr : List JVal → JVal
  | jobj : List (String × JVal) → JVal

/-- Python exceptions that the embedded code can raise. -/
inductive PyErr where
  | keyError : PyErr
  | typeError : PyErr
  | indexError : PyErr
  | attributeError : PyErr
  | valueError : String → PyErr
  | runtimeError : String → PyErr
  deriving DecidableEq, Repr

/-- Lookup in a Python dict (first, hence unique, binding of the key). -/
def objGet? : List (String × JVal) → String → Option JVal
  | [], _ => none
  | (k', v) :: rest, k => if k' = k then some v else objGet? rest k

/-- Python dict assignment `d[k] = v`: replace in place if the key exists,
append otherwise (insertion order is preserved). -/
def objSet : List (String × JVal) → String → JVal → List (String × JVal)
  | [], k, v => [(k, v)]
  | (k', v') :: rest, k, v =>
    if k' = k then (k, v) :: rest else (k', v') :: objSet rest k v

/-- Python `k in d` for a dict. -/
def containsKey (fields : List (String × JVal)) (k : String) : Bool :=
  (objGet? fields k).isSome

/-- Python `==` between a string and an arbitrary value: equal only to the same
string, `False` (never raising) against any other type. -/
def pyStrEqVal (s : String) : JVal → Bool
  | .jstr t => s = t
  | _ => false

/-- Substring containment on character lists (Python `needle in haystack` for
strings). -/
def listContainsSub (needle : List Char) : List Char → Bool
  | [] => needle.isEmpty
  | c :: rest => needle.isPrefixOf (c :: rest) || listContainsSub needle rest

/-- Python subscript `v[k]` with a string key: dict lookup (`KeyError` when
absent); a string key on a list, string or scalar raises `TypeError`. -/
def pySubscriptStr (v : JVal) (k : String) : Except PyErr JVal :=
  match v with
  | .jobj fields =>
    match objGet? fields k with
    | some x => .ok x
    | none => .error .keyError
  | _ => .error .typeError

/-- Python subscript `v[i]` with a non-negative integer: list/string indexing
(`IndexError` out of bounds), `KeyError` on a JSON dict (whose keys are strings,
so an integer key is never present), `TypeError` on scalars. -/
def pyIndexNat (v : JVal) (i : Nat) : Except PyErr JVal :=
  match v with
  | .jarr xs =>
    match xs.get? i with
    | some x => .ok x
    | none => .error .indexError
  | .jstr s =>
    match s.data.get? i with
    | some c => .ok (.jstr (String.mk [c]))
    | none => .error .indexError
  | .jobj _ => .error .keyError
  | _ => .error .typeError

/-- Python `needle in v` for a string needle: key test on dicts, membership on
lists, substring test on strings, `TypeError` on scalars. -/
def pyInStr (needle : String) (v : JVal) : Except PyErr Bool :=
  match v with
  | .jobj fields => .ok (containsKey fields needle)
  | .jarr xs => .ok (xs.any (pyStrEqVal needle))
  | .jstr s => .ok (listContainsSub needle.data s.data)
  | _ => .error .typeError

/-- Python truthiness of a JSON value. -/
def truthy : JVal → Bool
  | .jnull => false
  | .jbool b => b
  | .jnum n => n != 0
  | .jstr s => !s.data.isEmpty
  | .jarr xs => !xs.isEmpty
  | .jobj fields => !fields.isEmpty

/-- Python `len(v)`: defined on lists, strings and dicts, `TypeError` otherwise. -/
def pyLen (v : JVal) : Except PyErr Nat :=
  match v with
  | .jarr xs => .ok xs.length
  | .jstr s => .ok s.data.length
  | .jobj fields => .ok fields.length
  | _ => .error .typeError

/-- Python `v.get(k, default)`: only dicts have the method (`AttributeError`
otherwise). -/
def pyGet (v : JVal) (k : String) (dflt : JVal) : Except PyErr JVal :=
  match v with
  | .jobj fields => .ok ((objGet? fields k).getD dflt)
  | _ => .error .attributeError

/-- One addend of Python `sum(...)`: ints and bools add (True counts as 1),
anything else raises `TypeError`. -/
def pyIntAddend : JVal → Except PyErr Int
  | .jnum n => .ok n
  | .jbool b => .ok (cond b 1 0)
  | _ => .error .typeError

/-- Python `sum(d.values())` over a dict's values. -/
def pySumValues : List (String × JVal) → Except PyErr Int
  | [] => .ok 0
  | (_, v) :: rest =>
    match pyIntAddend v with
    | .error e => .error e
    | .ok n =>
      match pySumValues rest with
      | .error e => .error e
      | .ok s => .ok (n + s)

/-! ## FacebookClient (src/src/api/facebook_client.py)

`user_data` is the JSON value returned by `load_user_data()`; `user_id` is
`self.user_id` (the configured `LE_CHAT_USER_ID`). -/

/-- `FacebookClient.is_connected` (facebook_client.py lines 68-71):
`return self.user_id in user_data and 'pages' in user_data[self.user_id]`,
with Python short-circuit `and`. -/
def is_connected (user_data : JVal) (user_id : String) : Except PyErr Bool :=
  match pyInStr user_id user_data with
  | .error e => .error e
  | .ok false => .ok false
  | .ok true =>
    match pySubscriptStr user_data user_id with
    | .error e => .error e
    | .ok record => pyInStr "pages" record

/-- `FacebookClient.get_first_page` (facebook_client.py lines 73-80):
if the user id is present, take `pages = record.get('pages', [])`, return
`pages[0]` when `pages` is truthy; otherwise fall through to `return None`. -/
def get_first_page (user_data : JVal) (user_id : String) : Except PyErr JVal :=
  match pyInStr user_id user_data with
  | .error e => .error e
  | .ok false => .ok .jnull
  | .ok true =>
    match pySubscriptStr user_data user_id with
    | .error e => .error e
    | .ok record =>
      match pyGet record "pages" (.jarr []) with
      | .error e => .error e
      | .ok pages => if truthy pages then pyIndexNat pages 0 else .ok .jnull

/-- A truthy value never produces an `IndexError` at index 0. -/
theorem pyIndexNat_truthy_ne_indexError (v : JVal) (h : truthy v = true) :
    pyIndexNat v 0 ≠ .error .indexError := by
  cases v with
  | jarr xs =>
    cases xs with
    | nil => simp [truthy] at h
    | cons x xs => simp [pyIndexNat]
  | jstr s =>
    cases hd : s.data with
    | nil => simp [truthy, hd] at h
    | cons c cs => simp [pyIndexNat, hd]
  | jnull => simp [truthy] at h
  | jbool b => simp [pyIndexNat]
  | jnum n => simp [pyIndexNat]
  | jobj fields => simp [pyIndexNat]

/-- `pyInStr` only raises `TypeError`. -/
theorem pyInStr_error {needle : String} {v : JVal} {e : PyErr}
    (h : pyInStr needle v = .error e) : e = .typeError := by
  cases v <;> simp [pyInStr] at h <;> exact h.symm

/-- `pySubscriptStr` only raises `TypeError` or `KeyError`. -/
theorem pySubscriptStr_error {v : JVal} {k : String} {e : PyErr}
    (h : pySubscriptStr v k = .error e) : e = .typeError ∨ e = .keyError := by
  cases v with
  | jobj fields =>
    cases hg : objGet? fields k <;> simp [pySubscriptStr, hg] at h
    exact Or.inr h.symm
  | jnull => simp [pySubscriptStr] at h; exact Or.inl h.symm
  | jbool b => simp [pySubscriptStr] at h; exact Or.inl h.symm
  | jnum n => simp [pySubscriptStr] at h; exact Or.inl h.symm
  | jstr s => simp [pySubscriptStr] at h; exact Or.inl h.symm
  | jarr xs => simp [pySubscriptStr] at h; exact Or.inl h.symm

/-- `pyGet` only raises `AttributeError`. -/
theorem pyGet_error {v : JVal} {k : String} {d : JVal} {e : PyErr}
    (h : pyGet v k d = .error e) : e = .attributeError := by
  cases v <;> simp [pyGet] at h <;> exact h.symm

/-- C3 counterexample: with a connected-user record whose `pages` list exists
but is empty, `is_connected` returns `True`.  The claim states that
`isConnected` returns false when the pages list exists but is empty; the code
only tests `'pages' in user_data[self.user_id]`, i.e. key presence, so the
claim is false at this input. -/
theorem c3_counterexample :
    is_connected (.jobj [("u", .jobj [("access_token", .jstr "t"), ("pages", .jarr [])])]) "u"
      = .ok true := rfl

/-- C3 (amended): `is_connected` returns true iff the user id is present in the
stored mapping and its record (a JSON object) has a `pages` key, regardless of
whether the pages list is empty; it returns false when the user id is absent. -/
theorem c3_amended (fields : List (String × JVal)) (uid : String) :
    (objGet? fields uid = none → is_connected (.jobj fields) uid = .ok false)
    ∧ (∀ rfields, objGet? fields uid = some (.jobj rfields) →
        is_connected (.jobj fields) uid = .ok (containsKey rfields "pages")) := by
  constructor
  · intro h
    simp [is_connected, pyInStr, containsKey, h]
  · intro rfields h
    simp [is_connected, pyInStr, containsKey, pySubscriptStr, h]

/-- C3 amended witness: a present user whose record has a non-empty `pages`
list is reported connected. -/
theorem c3_amended_witness :
    is_connected (.jobj [("u", .jobj [("pages", .jarr [.jobj [("id", .jstr "p1")]])])]) "u"
      = .ok true :=
  (c3_amended [("u", .jobj [("pages", .jarr [.jobj [("id", .jstr "p1")]])])] "u").2
    [("pages", .jarr [.jobj [("id", .jstr "p1")]])] rfl

/-- C7: `get_first_page` never raises `IndexError` (the `pages[0]` access is
guarded by the truthiness test), and on a stored mapping it returns the `None`
sentinel when the user is absent, when the record has no `pages` key, or when
the pages list is empty, and the first page record when the list is non-empty. -/
theorem c7_get_first_page (user_data : JVal) (uid : String) :
    (get_first_page user_data uid ≠ .error .indexError)
    ∧ (∀ fields, user_data = .jobj fields →
        (objGet? fields uid = none → get_first_page user_data uid = .ok .jnull)
        ∧ (∀ rfields, objGet? fields uid = some (.jobj rfields) →
            (objGet? rfields "pages" = none → get_first_page user_data uid = .ok .jnull)
            ∧ (objGet? rfields "pages" = some (.jarr []) →
                get_first_page user_data uid = .ok .jnull)
            ∧ (∀ p ps, objGet? rfields "pages" = some (.jarr (p :: ps)) →
                get_first_page user_data uid = .ok p))) := by
  constructor
  · unfold get_first_page
    cases h1 : pyInStr uid user_data with
    | error e =>
      have he := pyInStr_error h1
      subst he
      simp
    | ok b =>
      cases b with
      | false => simp
      | true =>
        cases h2 : pySubscriptStr user_data uid with
        | error e =>
          rcases pySubscriptStr_error h2 with he | he <;> (subst he; simp)
        | ok record =>
          cases h3 : pyGet record "pages" (.jarr []) with
          | error e =>
            have he := pyGet_error h3
            subst he
            simp [h3]
          | ok pages =>
            by_cases ht : truthy pages = true
            · simpa [h3, ht] using pyIndexNat_truthy_ne_indexError pages ht
            · simp [Bool.not_eq_true] at ht
              simp [h3, ht]
  · intro fields hud
    subst hud
    constructor
    · intro h
      simp [get_first_page, pyInStr, containsKey, h]
    · intro rfields h
      refine ⟨?_, ?_, ?_⟩
      · intro hp
        simp [get_first_page, pyInStr, containsKey, pySubscriptStr, pyGet, h, hp, truthy]
      · intro hp
        simp [get_first_page, pyInStr, containsKey, pySubscriptStr, pyGet, h, hp, truthy]
      · intro p ps hp
        simp [get_first_page, pyInStr, containsKey, pySubscriptStr, pyGet, h, hp, truthy,
          pyIndexNat]

/-- C7 witness: on a concrete stored mapping with one page, the first page is
returned; on one with an empty pages list, the sentinel is returned. -/
theorem c7_get_first_page_witness :
    get_first_page (.jobj [("u", .jobj [("pages", .jarr [.jstr "pg"])])]) "u" = .ok (.jstr "pg")
    ∧ get_first_page (.jobj [("v", .jobj [("pages", .jarr [])])]) "v" = .ok .jnull :=
  ⟨(((c7_get_first_page (.jobj [("u", .jobj [("pages", .jarr [.jstr "pg"])])]) "u").2
      [("u", .jobj [("pages", .jarr [.jstr "pg"])])] rfl).2
      [("pages", .jarr [.jstr "pg"])] rfl).2.2 (.jstr "pg") [] rfl,
   (((c7_get_first_page (.jobj [("v", .jobj [("pages", .jarr [])])]) "v").2
      [("v", .jobj [("pages", .jarr [])])] rfl).2
      [("pages", .jarr [])] rfl).2.1 rfl⟩

/-! ## Post analytics (src/src/api/facebook_posts.py and src/main.py)

Both `FacebookPosts.get_post_analytics` and `get_post_analytics_internal` are
modelled as functions of the already-decoded JSON bodies of the upstream HTTP
responses (`insights_response.json()` and `reactions_response.json()`); a
network failure or a non-JSON body corresponds to an exception raised before
the processing starts, which the enclosing `try/except` turns into the same
fallback record as any other exception, so it is subsumed by the error case of
the body. -/

/-- Python `for x in v`: lists iterate elements, strings iterate one-character
strings, dicts iterate keys; scalars raise `TypeError`. -/
def pyIterate (v : JVal) : Except PyErr (List JVal) :=
  match v with
  | .jarr xs => .ok xs
  | .jstr s => .ok (s.data.map (fun c => .jstr (String.mk [c])))
  | .jobj fields => .ok (fields.map (fun p => .jstr p.1))
  | _ => .error .typeError

/-- Field of a JSON object result (`none` on non-objects). -/
def fieldOf (v : JVal) (k : String) : Option JVal :=
  match v with
  | .jobj fields => objGet? fields k
  | _ => none

/-- The initial `analytics` dict of `FacebookPosts.get_post_analytics`
(facebook_posts.py lines 74-89). -/
def fbInitFields : List (String × JVal) :=
  [("views", .jnum 0), ("engaged_users", .jnum 0), ("clicks", .jnum 0), ("likes", .jnum 0),
   ("metadata", .jobj [("reactions", .jobj
     [("like", .jnum 0), ("love", .jnum 0), ("wow", .jnum 0),
      ("haha", .jnum 0), ("sad", .jnum 0), ("angry", .jnum 0)])])]

/-- The record returned by the `except` clause of
`FacebookPosts.get_post_analytics` (facebook_posts.py lines 112-118).
Note it has no `lastUpdated` field. -/
def fbErrorAnalytics : JVal :=
  .jobj [("views", .jnum 0), ("engaged_users", .jnum 0), ("clicks", .jnum 0),
    ("likes", .jnum 0), ("metadata", .jobj [("reactions", .jobj [])])]

/-- `metric['values'][0]['value']` (facebook_posts.py lines 94-100 and
main.py line 487). -/
def fbMetricValue (metric : JVal) : Except PyErr JVal :=
  match pySubscriptStr metric "values" with
  | .error e => .error e
  | .ok vs =>
    match pyIndexNat vs 0 with
    | .error e => .error e
    | .ok v0 => pySubscriptStr v0 "value"

/-- `analytics['metadata']['reactions'] = reactions` (facebook_posts.py
line 101): read the `metadata` sub-dict and set its `reactions` key. -/
def fbSetMetaReactions (a : List (String × JVal)) (r : JVal) :
    Except PyErr (List (String × JVal)) :=
  match objGet? a "metadata" with
  | some (.jobj m) => .ok (objSet a "metadata" (.jobj (objSet m "reactions" r)))
  | some _ => .error .typeError
  | none => .error .keyError

/-- One iteration of the `for metric in insights_data['data']` loop of
`FacebookPosts.get_post_analytics` (facebook_posts.py lines 92-102). -/
def fbLoopStep (a : List (String × JVal)) (metric : JVal) :
    Except PyErr (List (String × JVal)) :=
  match pySubscriptStr metric "name" with
  | .error e => .error e
  | .ok nameV =>
    if pyStrEqVal "post_impressions" nameV then
      match fbMetricValue metric with
      | .error e => .error e
      | .ok v => .ok (objSet a "views" v)
    else if pyStrEqVal "post_engaged_users" nameV then
      match fbMetricValue metric with
      | .error e => .error e
      | .ok v => .ok (objSet a "engaged_users" v)
    else if pyStrEqVal "post_clicks" nameV then
      match fbMetricValue metric with
      | .error e => .error e
      | .ok v => .ok (objSet a "clicks" v)
    else if pyStrEqVal "post_reactions_by_type_total" nameV then
      match fbMetricValue metric with
      | .error e => .error e
      | .ok reactions =>
        match fbSetMetaReactions a reactions with
        | .error e => .error e
        | .ok a' =>
          match reactions with
          | .jobj rf =>
            match pySumValues rf with
            | .error e => .error e
            | .ok s => .ok (objSet a' "likes" (.jnum s))
          | _ => .error .attributeError
    else .ok a

/-- The whole metrics loop of `FacebookPosts.get_post_analytics`. -/
def fbLoop (items : List JVal) (a : List (String × JVal)) :
    Except PyErr (List (String × JVal)) :=
  match items with
  | [] => .ok a
  | m :: rest =>
    match fbLoopStep a m with
    | .error e => .error e
    | .ok a' => fbLoop rest a'

/-- The reactions-summary overwrite of `FacebookPosts.get_post_analytics`
(facebook_posts.py lines 105-106): `if 'summary' in reactions_data and
'total_count' in reactions_data['summary']: analytics['likes'] = ...`. -/
def fbSummaryStep (a : List (String × JVal)) (reactions_data : JVal) :
    Except PyErr (List (String × JVal)) :=
  match pyInStr "summary" reactions_data with
  | .error e => .error e
  | .ok false => .ok a
  | .ok true =>
    match pySubscriptStr reactions_data "summary" with
    | .error e => .error e
    | .ok sm =>
      match pyInStr "total_count" sm with
      | .error e => .error e
      | .ok false => .ok a
      | .ok true =>
        match pySubscriptStr sm "total_count" with
        | .error e => .error e
        | .ok tc => .ok (objSet a "likes" tc)

/-- The `if 'data' in insights_data: for metric in insights_data['data']: ...`
part of `FacebookPosts.get_post_analytics` (facebook_posts.py lines 91-102),
starting from the freshly initialised `analytics` dict. -/
def fbInsightsPart (insights_data : JVal) : Except PyErr (List (String × JVal)) :=
  match pyInStr "data" insights_data with
  | .error e => .error e
  | .ok false => .ok fbInitFields
  | .ok true =>
    match pySubscriptStr insights_data "data" with
    | .error e => .error e
    | .ok d =>
      match pyIterate d with
      | .error e => .error e
      | .ok items => fbLoop items fbInitFields

/-- The `try` body of `FacebookPosts.get_post_analytics` (facebook_posts.py
lines 52-108), as a function of the two decoded response bodies: the insights
processing followed by the reactions-summary overwrite. -/
def fbAnalyticsBody (insights_data reactions_data : JVal) : Except PyErr JVal :=
  match fbInsightsPart insights_data with
  | .error e => .error e
  | .ok a =>
    match fbSummaryStep a reactions_data with
    | .error e => .error e
    | .ok a' => .ok (.jobj a')

/-- `FacebookPosts.get_post_analytics` (facebook_posts.py lines 50-118): the
`try` body with the catch-all `except` returning the zeroed fallback record. -/
def get_post_analytics (insights_data reactions_data : JVal) : JVal :=
  match fbAnalyticsBody insights_data reactions_data with
  | .ok r => r
  | .error _ => fbErrorAnalytics

/-! ### `get_post_analytics_internal` (src/main.py lines 453-532) -/

/-- Python `==` between two hashable dict keys as used by dict lookup
(`True == 1` in Python; unhashable keys never reach this point). -/
def keyEq : JVal → JVal → Bool
  | .jstr a, .jstr b => a = b
  | .jnum a, .jnum b => a = b
  | .jbool a, .jbool b => a = b
  | .jbool a, .jnum b => (cond a 1 0 : Int) = b
  | .jnum a, .jbool b => a = (cond b 1 0 : Int)
  | .jnull, .jnull => true
  | _, _ => false

/-- `metrics[k] = v` for the `metrics` dict of `get_post_analytics_internal`,
whose keys come from `metric['name']` and so can be arbitrary hashable values;
lists and dicts are unhashable and raise `TypeError`. -/
def metricsSet (ms : List (JVal × JVal)) (k v : JVal) : Except PyErr (List (JVal × JVal)) :=
  match k with
  | .jarr _ => .error .typeError
  | .jobj _ => .error .typeError
  | _ => .ok (metricsSetGo ms k v)
where
  metricsSetGo : List (JVal × JVal) → JVal → JVal → List (JVal × JVal)
  | [], k, v => [(k, v)]
  | (k', v') :: rest, k, v =>
    if keyEq k' k then (k, v) :: rest else (k', v') :: metricsSetGo rest k v

/-- `metrics.get(name, default)` for a string name. -/
def metricsGetStr (ms : List (JVal × JVal)) (name : String) : Option JVal :=
  match ms with
  | [] => none
  | (k, v) :: rest => if keyEq k (.jstr name) then some v else metricsGetStr rest name

/-- The loop state of `get_post_analytics_internal` (main.py lines 481-483):
the `metrics` dict, the `total_reactions` variable (any value: the non-dict
branch assigns the raw metric value), and the `reaction_breakdown` dict. -/
structure InternalState where
  metrics : List (JVal × JVal)
  total_reactions : JVal
  breakdown : List (String × JVal)

/-- One iteration of the metrics loop of `get_post_analytics_internal`
(main.py lines 485-498). -/
def internalStep (st : InternalState) (metric : JVal) : Except PyErr InternalState :=
  match pyGet metric "values" .jnull with
  | .error e => .error e
  | .ok vs =>
    if truthy vs then
      match pySubscriptStr metric "values" with
      | .error e => .error e
      | .ok vs2 =>
        match pyLen vs2 with
        | .error e => .error e
        | .ok n =>
          if 0 < n then
            match fbMetricValue metric with
            | .error e => .error e
            | .ok value =>
              match pySubscriptStr metric "name" with
              | .error e => .error e
              | .ok nameV =>
                if pyStrEqVal "post_reactions_by_type_total" nameV then
                  match value with
                  | .jobj g =>
                    match pySumValues g with
                    | .error e => .error e
                    | .ok s =>
                      match metricsSet st.metrics (.jstr "total_reactions") (.jnum s) with
                      | .error e => .error e
                      | .ok ms => .ok ⟨ms, .jnum s, g⟩
                  | _ =>
                    match metricsSet st.metrics (.jstr "total_reactions") value with
                    | .error e => .error e
                    | .ok ms => .ok ⟨ms, value, st.breakdown⟩
                else
                  match metricsSet st.metrics nameV value with
                  | .error e => .error e
                  | .ok ms => .ok ⟨ms, st.total_reactions, st.breakdown⟩
          else .ok st
    else .ok st

/-- The whole metrics loop of `get_post_analytics_internal`. -/
def internalLoop (items : List JVal) (st : InternalState) : Except PyErr InternalState :=
  match items with
  | [] => .ok st
  | m :: rest =>
    match internalStep st m with
    | .error e => .error e
    | .ok st' => internalLoop rest st'

/-- The all-zero record tagged `lastUpdated: "error"` returned both on a
missing `data` key (main.py lines 468-478) and by the `except` clause
(main.py lines 522-532). -/
def internalErrorRecord (post_id : String) : JVal :=
  .jobj [("views", .jnum 0), ("likes", .jnum 0), ("clicks", .jnum 0),
    ("metadata", .jobj
      [("platform", .jstr "facebook"), ("postId", .jstr post_id),
       ("reactions", .jobj
         [("like", .jnum 0), ("love", .jnum 0), ("wow", .jnum 0), ("haha", .jnum 0),
          ("sorry", .jnum 0), ("anger", .jnum 0), ("total", .jnum 0)]),
       ("lastUpdated", .jstr "error")])]

/-- The success record of `get_post_analytics_internal` (main.py
lines 500-518). -/
def internalSuccessRecord (post_id : String) (st : InternalState) : JVal :=
  .jobj [("views", (metricsGetStr st.metrics "post_impressions").getD (.jnum 0)),
    ("likes", st.total_reactions),
    ("clicks", (metricsGetStr st.metrics "post_clicks").getD (.jnum 0)),
    ("metadata", .jobj
      [("platform", .jstr "facebook"), ("postId", .jstr post_id),
       ("reactions", .jobj
         [("like", (objGet? st.breakdown "like").getD (.jnum 0)),
          ("love", (objGet? st.breakdown "love").getD (.jnum 0)),
          ("wow", (objGet? st.breakdown "wow").getD (.jnum 0)),
          ("haha", (objGet? st.breakdown "haha").getD (.jnum 0)),
          ("sorry", (objGet? st.breakdown "sorry").getD (.jnum 0)),
          ("anger", (objGet? st.breakdown "anger").getD (.jnum 0)),
          ("total", st.total_reactions)]),
       ("lastUpdated", .jstr "2024-01-01T00:00:00Z")])]

/-- The `try` body of `get_post_analytics_internal` (main.py lines 455-518). -/
def internalBody (post_id : String) (insights_data : JVal) : Except PyErr JVal :=
  match pyInStr "data" insights_data with
  | .error e => .error e
  | .ok false => .ok (internalErrorRecord post_id)
  | .ok true =>
    match pySubscriptStr insights_data "data" with
    | .error e => .error e
    | .ok d =>
      match pyIterate d with
      | .error e => .error e
      | .ok items =>
        match internalLoop items ⟨[], .jnum 0, []⟩ with
        | .error e => .error e
        | .ok st => .ok (internalSuccessRecord post_id st)

/-- `get_post_analytics_internal` (main.py lines 453-532): the `try` body with
the catch-all `except` returning the zeroed, `lastUpdated: "error"` record. -/
def get_post_analytics_internal (post_id : String) (insights_data : JVal) : JVal :=
  match internalBody post_id insights_data with
  | .ok r => r
  | .error _ => internalErrorRecord post_id

/-! ### Lemmas about the analytics loops -/

theorem objGet?_objSet_self (a : List (String × JVal)) (k : String) (v : JVal) :
    objGet? (objSet a k v) k = some v := by
  induction a with
  | nil => simp [objSet, objGet?]
  | cons p rest ih =>
    obtain ⟨k', v'⟩ := p
    by_cases hk : k' = k
    · simp [objSet, objGet?, hk]
    · simp [objSet, objGet?, hk, ih]

theorem objGet?_objSet_ne (a : List (String × JVal)) {k k' : String} (h : k' ≠ k) (v : JVal) :
    objGet? (objSet a k v) k' = objGet? a k' := by
  induction a with
  | nil =>
    simp only [objSet, objGet?]
    rw [if_neg (fun hh => h hh.symm)]
  | cons p rest ih =>
    obtain ⟨k0, v0⟩ := p
    simp only [objSet]
    split_ifs with hk
    · subst hk
      simp [objGet?, Ne.symm h]
    · simp only [objGet?]
      split_ifs with hk'
      · rfl
      · exact ih

/-- Does a JSON value look like a metric entry with the given `name`?  (An
object whose `name` field equals the string.) -/
def isEntryNamed (name : String) (m : JVal) : Bool :=
  match m with
  | .jobj f =>
    match objGet? f "name" with
    | some v => pyStrEqVal name v
    | none => false
  | _ => false

/-- Does the decoded insights body contain a metric entry with the given name?
(`data` key present, a list, with such an entry.) -/
def insightsHasEntry (ins : JVal) (name : String) : Bool :=
  match ins with
  | .jobj f =>
    match objGet? f "data" with
    | some (.jarr items) => items.any (isEntryNamed name)
    | _ => false
  | _ => false

theorem isEntryNamed_of_name {m nameV : JVal} (h : pySubscriptStr m "name" = .ok nameV)
    (nm : String) : isEntryNamed nm m = pyStrEqVal nm nameV := by
  cases m <;> simp [pySubscriptStr] at h
  next fields =>
    cases hg : objGet? fields "name" with
    | none => rw [hg] at h; cases h
    | some v => rw [hg] at h; simp at h; subst h; simp [isEntryNamed, hg]

/-- `fbSetMetaReactions` does not change the four numeric fields. -/
theorem fbSetMetaReactions_fields {a a' : List (String × JVal)} {r : JVal}
    (h : fbSetMetaReactions a r = .ok a') (k : String) (hk : k ≠ "metadata") :
    objGet? a' k = objGet? a k := by
  unfold fbSetMetaReactions at h
  cases hm : objGet? a "metadata" with
  | none => rw [hm] at h; cases h
  | some mv =>
    rw [hm] at h
    cases mv <;> simp at h
    next m =>
      subst h
      exact objGet?_objSet_ne a hk _

/-- Field-preservation of one loop step of `FacebookPosts.get_post_analytics`:
a step that is not the named metric entry leaves the corresponding field of the
analytics dict unchanged. -/
theorem fbLoopStep_fields {a : List (String × JVal)} {m : JVal} {a' : List (String × JVal)}
    (h : fbLoopStep a m = .ok a') :
    (isEntryNamed "post_impressions" m = false → objGet? a' "views" = objGet? a "views")
    ∧ (isEntryNamed "post_engaged_users" m = false →
        objGet? a' "engaged_users" = objGet? a "engaged_users")
    ∧ (isEntryNamed "post_clicks" m = false → objGet? a' "clicks" = objGet? a "clicks")
    ∧ (isEntryNamed "post_reactions_by_type_total" m = false →
        objGet? a' "likes" = objGet? a "likes") := by
  unfold fbLoopStep at h
  split at h
  · cases h
  next nameV hn =>
    have hen := isEntryNamed_of_name hn
    split at h
    next h1 =>
      split at h
      · cases h
      next v hv =>
        cases h
        refine ⟨?_, ?_, ?_, ?_⟩
        · intro hf; rw [hen, h1] at hf; cases hf
        · intro _; exact objGet?_objSet_ne a (by decide) v
        · intro _; exact objGet?_objSet_ne a (by decide) v
        · intro _; exact objGet?_objSet_ne a (by decide) v
    next h1 =>
      split at h
      next h2 =>
        split at h
        · cases h
        next v hv =>
          cases h
          refine ⟨?_, ?_, ?_, ?_⟩
          · intro _; exact objGet?_objSet_ne a (by decide) v
          · intro hf; rw [hen, h2] at hf; cases hf
          · intro _; exact objGet?_objSet_ne a (by decide) v
          · intro _; exact objGet?_objSet_ne a (by decide) v
      next h2 =>
        split at h
        next h3 =>
          split at h
          · cases h
          next v hv =>
            cases h
            refine ⟨?_, ?_, ?_, ?_⟩
            · intro _; exact objGet?_objSet_ne a (by decide) v
            · intro _; exact objGet?_objSet_ne a (by decide) v
            · intro hf; rw [hen, h3] at hf; cases hf
            · intro _; exact objGet?_objSet_ne a (by decide) v
        next h3 =>
          split at h
          next h4 =>
            split at h
            · cases h
            next reactions hv =>
              split at h
              · cases h
              next a1 hsm =>
                split at h
                next rf =>
                  split at h
                  · cases h
                  next s hs =>
                    cases h
                    have ha1 := fbSetMetaReactions_fields hsm
                    refine ⟨?_, ?_, ?_, ?_⟩
                    · intro _
                      rw [objGet?_objSet_ne a1 (by decide) _]
                      exact ha1 "views" (by decide)
                    · intro _
                      rw [objGet?_objSet_ne a1 (by decide) _]
                      exact ha1 "engaged_users" (by decide)
                    · intro _
                      rw [objGet?_objSet_ne a1 (by decide) _]
                      exact ha1 "clicks" (by decide)
                    · intro hf; rw [hen, h4] at hf; cases hf
                next hnd => cases h
          next h4 =>
            cases h
            exact ⟨fun _ => rfl, fun _ => rfl, fun _ => rfl, fun _ => rfl⟩

/-- Field-preservation over the whole metrics loop. -/
theorem fbLoop_fields {items : List JVal} {a a' : List (String × JVal)}
    (h : fbLoop items a = .ok a') :
    (items.any (isEntryNamed "post_impressions") = false →
      objGet? a' "views" = objGet? a "views")
    ∧ (items.any (isEntryNamed "post_engaged_users") = false →
        objGet? a' "engaged_users" = objGet? a "engaged_users")
    ∧ (items.any (isEntryNamed "post_clicks") = false →
        objGet? a' "clicks" = objGet? a "clicks")
    ∧ (items.any (isEntryNamed "post_reactions_by_type_total") = false →
        objGet? a' "likes" = objGet? a "likes") := by
  induction items generalizing a with
  | nil =>
    unfold fbLoop at h
    cases h
    exact ⟨fun _ => rfl, fun _ => rfl, fun _ => rfl, fun _ => rfl⟩
  | cons m rest ih =>
    unfold fbLoop at h
    split at h
    · cases h
    next a1 hs =>
      have hstep := fbLoopStep_fields hs
      have hrest := ih h
      refine ⟨?_, ?_, ?_, ?_⟩
      · intro hne
        rw [List.any_cons, Bool.or_eq_false_iff] at hne
        rw [hrest.1 hne.2, hstep.1 hne.1]
      · intro hne
        rw [List.any_cons, Bool.or_eq_false_iff] at hne
        rw [hrest.2.1 hne.2, hstep.2.1 hne.1]
      · intro hne
        rw [List.any_cons, Bool.or_eq_false_iff] at hne
        rw [hrest.2.2.1 hne.2, hstep.2.2.1 hne.1]
      · intro hne
        rw [List.any_cons, Bool.or_eq_false_iff] at hne
        rw [hrest.2.2.2 hne.2, hstep.2.2.2 hne.1]

/-- `keyEq` respects itself when comparing against a string key. -/
theorem keyEq_trans_jstr {a b : JVal} (h : keyEq a b = true) (n : String) :
    keyEq a (.jstr n) = keyEq b (.jstr n) := by
  cases a <;> cases b <;> simp [keyEq] at h ⊢ <;> simp [h]

/-- A value that is not string-equal to `n` is not `keyEq` to the string key
`n` either. -/
theorem keyEq_jstr_of_pyStrEqVal_false {n : String} {v : JVal}
    (h : pyStrEqVal n v = false) : keyEq v (.jstr n) = false := by
  cases v <;> simp [pyStrEqVal, keyEq] at h ⊢
  exact fun hh => h hh.symm

theorem metricsGetStr_setGo_ne (ms : List (JVal × JVal)) (k v : JVal) (n : String)
    (h : keyEq k (.jstr n) = false) :
    metricsGetStr (metricsSet.metricsSetGo ms k v) n = metricsGetStr ms n := by
  induction ms with
  | nil => simp [metricsSet.metricsSetGo, metricsGetStr, h]
  | cons p rest ih =>
    obtain ⟨k0, v0⟩ := p
    simp only [metricsSet.metricsSetGo]
    split_ifs with hk
    · simp only [metricsGetStr, h]
      rw [keyEq_trans_jstr hk n] at *
      simp [h]
    · simp only [metricsGetStr]
      split_ifs with hk'
      · rfl
      · exact ih

/-- Like `metricsSet`, but stated through the `Except` wrapper. -/
theorem metricsSet_get_ne {ms ms' : List (JVal × JVal)} {k v : JVal} {n : String}
    (h : metricsSet ms k v = .ok ms') (hne : keyEq k (.jstr n) = false) :
    metricsGetStr ms' n = metricsGetStr ms n := by
  unfold metricsSet at h
  split at h
  · cases h
  · cases h
  · cases h
    exact metricsGetStr_setGo_ne ms k v n hne

/-- Field-preservation of one loop step of `get_post_analytics_internal`. -/
theorem internalStep_fields {st st' : InternalState} {m : JVal}
    (h : internalStep st m = .ok st') :
    (∀ n, n ≠ "total_reactions" → isEntryNamed n m = false →
      metricsGetStr st'.metrics n = metricsGetStr st.metrics n)
    ∧ (isEntryNamed "post_reactions_by_type_total" m = false →
        st'.total_reactions = st.total_reactions ∧ st'.breakdown = st.breakdown) := by
  unfold internalStep at h
  split at h
  · cases h
  next vs hvs =>
    split at h
    case isFalse =>
      cases h
      exact ⟨fun _ _ _ => rfl, fun _ => ⟨rfl, rfl⟩⟩
    case isTrue =>
      split at h
      · cases h
      next vs2 hvs2 =>
        split at h
        · cases h
        next nlen hlen =>
          split at h
          case isFalse =>
            cases h
            exact ⟨fun _ _ _ => rfl, fun _ => ⟨rfl, rfl⟩⟩
          case isTrue =>
            split at h
            · cases h
            next value hval =>
              split at h
              · cases h
              next nameV hname =>
                have hen := isEntryNamed_of_name hname
                split at h
                next hbt =>
                  -- the reactions-by-type branch
                  split at h
                  next g =>
                    split at h
                    · cases h
                    next s hsum =>
                      split at h
                      · cases h
                      next ms hms =>
                        cases h
                        refine ⟨?_, ?_⟩
                        · intro n hn _
                          exact metricsSet_get_ne hms (by simp [keyEq, Ne.symm hn])
                        · intro hf; rw [hen, hbt] at hf; cases hf
                  next hnd =>
                    split at h
                    · cases h
                    next ms hms =>
                      cases h
                      refine ⟨?_, ?_⟩
                      · intro n hn _
                        exact metricsSet_get_ne hms (by simp [keyEq, Ne.symm hn])
                      · intro hf; rw [hen, hbt] at hf; cases hf
                next hbt =>
                  split at h
                  · cases h
                  next ms hms =>
                    cases h
                    refine ⟨?_, ?_⟩
                    · intro n _ hne
                      rw [hen] at hne
                      exact metricsSet_get_ne hms (keyEq_jstr_of_pyStrEqVal_false hne)
                    · intro _; exact ⟨rfl, rfl⟩

/-- Field-preservation over the whole internal metrics loop. -/
theorem internalLoop_fields {items : List JVal} {st st' : InternalState}
    (h : internalLoop items st = .ok st') :
    (∀ n, n ≠ "total_reactions" → items.any (isEntryNamed n) = false →
      metricsGetStr st'.metrics n = metricsGetStr st.metrics n)
    ∧ (items.any (isEntryNamed "post_reactions_by_type_total") = false →
        st'.total_reactions = st.total_reactions ∧ st'.breakdown = st.breakdown) := by
  induction items generalizing st with
  | nil =>
    unfold internalLoop at h
    cases h
    exact ⟨fun _ _ _ => rfl, fun _ => ⟨rfl, rfl⟩⟩
  | cons m rest ih =>
    unfold internalLoop at h
    split at h
    · cases h
    next st1 hs =>
      have hstep := internalStep_fields hs
      have hrest := ih h
      refine ⟨?_, ?_⟩
      · intro n hn hne
        rw [List.any_cons, Bool.or_eq_false_iff] at hne
        rw [hrest.1 n hn hne.2, hstep.1 n hn hne.1]
      · intro hne
        rw [List.any_cons, Bool.or_eq_false_iff] at hne
        obtain ⟨h1, h2⟩ := hrest.2 hne.2
        obtain ⟨h3, h4⟩ := hstep.2 hne.1
        exact ⟨h1.trans h3, h2.trans h4⟩

/-- The reactions-endpoint summary total, read off the decoded body the way the
spec describes it: the body is an object whose `summary` field is an object
with a `total_count` field. -/
def summaryTotal? (rd : JVal) : Option JVal :=
  match rd with
  | .jobj rf =>
    match objGet? rf "summary" with
    | some (.jobj sf) => objGet? sf "total_count"
    | _ => none
  | _ => none

/-- Destructuring a successful string subscript. -/
theorem pySubscriptStr_ok {v : JVal} {k : String} {x : JVal}
    (h : pySubscriptStr v k = .ok x) : ∃ f, v = .jobj f ∧ objGet? f k = some x := by
  cases v <;> simp [pySubscriptStr] at h
  next f =>
    cases hg : objGet? f k with
    | none => rw [hg] at h; cases h
    | some y =>
      rw [hg] at h
      cases h
      exact ⟨f, rfl, hg⟩

/-- Destructuring a present summary total. -/
theorem summaryTotal?_eq_some {rd tc : JVal} (h : summaryTotal? rd = some tc) :
    ∃ rf sf, rd = .jobj rf ∧ objGet? rf "summary" = some (.jobj sf)
      ∧ objGet? sf "total_count" = some tc := by
  cases rd <;> simp [summaryTotal?] at h
  next rf =>
    cases hg : objGet? rf "summary" with
    | none => rw [hg] at h; cases h
    | some smv =>
      rw [hg] at h
      cases smv <;> simp at h
      next sf => exact ⟨rf, sf, rfl, hg, h⟩

/-- What a successful summary-overwrite step does: nothing when the body has no
summary total; an overwrite of `likes` with the total when it has one; in
either case every other field is untouched. -/
theorem fbSummaryStep_spec {a a' : List (String × JVal)} {rd : JVal}
    (h : fbSummaryStep a rd = .ok a') :
    (summaryTotal? rd = none → a' = a)
    ∧ (∀ tc, summaryTotal? rd = some tc → a' = objSet a "likes" tc)
    ∧ (∀ k, k ≠ "likes" → objGet? a' k = objGet? a k) := by
  unfold fbSummaryStep at h
  split at h
  · cases h
  next hin =>
    -- `'summary' in reactions_data` is false
    cases h
    refine ⟨fun _ => rfl, ?_, fun _ _ => rfl⟩
    intro tc hc
    exfalso
    obtain ⟨rf, sf, hrd, hg, _⟩ := summaryTotal?_eq_some hc
    subst hrd
    simp [pyInStr, containsKey, hg] at hin
  next hin =>
    split at h
    · cases h
    next sm hsm =>
      obtain ⟨rf, hrd, hg⟩ := pySubscriptStr_ok hsm
      subst hrd
      split at h
      · cases h
      next hin2 =>
        -- `'total_count' in summary` is false
        cases h
        refine ⟨fun _ => rfl, ?_, fun _ _ => rfl⟩
        intro tc hc
        exfalso
        obtain ⟨rf', sf, hrd', hg', htcv⟩ := summaryTotal?_eq_some hc
        cases hrd'
        rw [hg] at hg'
        cases hg'
        simp [pyInStr, containsKey, htcv] at hin2
      next hin2 =>
        split at h
        · cases h
        next tc0 htc =>
          cases h
          obtain ⟨sf, hsm', htc0⟩ := pySubscriptStr_ok htc
          subst hsm'
          have hst : summaryTotal? (.jobj rf) = some tc0 := by
            simp [summaryTotal?, hg, htc0]
          refine ⟨?_, ?_, ?_⟩
          · intro hc; rw [hst] at hc; cases hc
          · intro tc hc
            rw [hst] at hc
            cases hc
            rfl
          · intro k hk
            exact objGet?_objSet_ne a hk tc0

/-- Iterating any JSON value either yields the list itself or a list of strings
(keys of a dict, characters of a string), none of which can be a metric entry. -/
theorem pyIterate_entry_false {d : JVal} {items : List JVal} (h : pyIterate d = .ok items)
    (n : String) (hd : ∀ xs, d = .jarr xs → xs.any (isEntryNamed n) = false) :
    items.any (isEntryNamed n) = false := by
  cases d <;> simp [pyIterate] at h
  case jarr xs =>
    subst h
    exact hd _ rfl
  case jstr s =>
    subst h
    rw [List.any_eq_false]
    intro x hx
    simp only [List.mem_map] at hx
    obtain ⟨c, hc, rfl⟩ := hx
    simp [isEntryNamed]
  case jobj f =>
    subst h
    rw [List.any_eq_false]
    intro x hx
    simp only [List.mem_map] at hx
    obtain ⟨p, hp, rfl⟩ := hx
    simp [isEntryNamed]

/-- If the insights body has no entry for metric `n`, the corresponding field
of the analytics dict after the insights loop is still its initial value. -/
theorem fbInsightsPart_field_init {ins : JVal} {a : List (String × JVal)}
    (h : fbInsightsPart ins = .ok a) (n fld : String)
    (hloop : ∀ items a1, fbLoop items fbInitFields = .ok a1 →
      items.any (isEntryNamed n) = false → objGet? a1 fld = objGet? fbInitFields fld)
    (hins : insightsHasEntry ins n = false) :
    objGet? a fld = objGet? fbInitFields fld := by
  unfold fbInsightsPart at h
  split at h
  · cases h
  · cases h; rfl
  next hin =>
    split at h
    · cases h
    next d hdsub =>
      split at h
      · cases h
      next items hit =>
        obtain ⟨f, hf, hg⟩ := pySubscriptStr_ok hdsub
        subst hf
        refine hloop items a h (pyIterate_entry_false hit n ?_)
        intro xs hxs
        subst hxs
        simpa [insightsHasEntry, hg] using hins

/-- Decomposition of a successful run of the posts-variant body. -/
theorem fbAnalyticsBody_ok_shape {ins rd r : JVal} (hb : fbAnalyticsBody ins rd = .ok r) :
    ∃ a a', fbInsightsPart ins = .ok a ∧ fbSummaryStep a rd = .ok a' ∧ r = .jobj a' := by
  unfold fbAnalyticsBody at hb
  split at hb
  · cases hb
  next a hpart =>
    split at hb
    · cases hb
    next a' hsum =>
      cases hb
      exact ⟨a, a', hpart, hsum, rfl⟩

/-- Decomposition of a successful run of the internal-variant body: either the
early `'data' not in insights_data` record, or a success record built from a
loop over items none of which can be a metric entry the insights body lacks. -/
theorem internalBody_ok_shape {post_id : String} {ins r : JVal}
    (hb : internalBody post_id ins = .ok r) :
    r = internalErrorRecord post_id
    ∨ ∃ items st, r = internalSuccessRecord post_id st
        ∧ internalLoop items ⟨[], .jnum 0, []⟩ = .ok st
        ∧ ∀ n, insightsHasEntry ins n = false → items.any (isEntryNamed n) = false := by
  unfold internalBody at hb
  split at hb
  · cases hb
  · cases hb
    exact Or.inl rfl
  next hin =>
    split at hb
    · cases hb
    next d hd =>
      split at hb
      · cases hb
      next items hit =>
        split at hb
        · cases hb
        next st hloop =>
          cases hb
          refine Or.inr ⟨items, st, rfl, hloop, ?_⟩
          intro n hins
          obtain ⟨f, hf, hg⟩ := pySubscriptStr_ok hd
          subst hf
          refine pyIterate_entry_false hit n ?_
          intro xs hxs
          subst hxs
          simpa [insightsHasEntry, hg] using hins

/-- C1 counterexample: an upstream `post_impressions` metric whose leaf value
is malformed (the string `"abc"` instead of a count) is copied verbatim into
the returned record, so the `views` field is neither zero nor numeric.  The
claim states that malformed upstream fields always yield zero numeric fields;
it is false at this input (the same happens in the internal variant). -/
theorem c1_counterexample :
    fieldOf
      (get_post_analytics
        (.jobj [("data", .jarr [.jobj [("name", .jstr "post_impressions"),
          ("values", .jarr [.jobj [("value", .jstr "abc")]])]])])
        (.jobj []))
      "views" = some (.jstr "abc")
    ∧ fieldOf
        (get_post_analytics_internal "p1"
          (.jobj [("data", .jarr [.jobj [("name", .jstr "post_impressions"),
            ("values", .jarr [.jobj [("value", .jstr "abc")]])]])]))
        "views" = some (.jstr "abc") := ⟨rfl, rfl⟩

/-- C1 (amended): both variants catch every exception of the fetch/processing
and return a record instead of raising (first two conjuncts: the result is
either the successful body's record or the zeroed fallback record).  When an
upstream metric entry is structurally missing — no `data` key, `data` not a
list, or no entry of the metric's name — the corresponding numeric field of
the result is zero; for `likes` in the posts variant this additionally needs
the reactions-endpoint summary total to be absent.  (A present but
type-malformed leaf value, however, is copied through verbatim, see the
counterexample.) -/
theorem c1_amended (ins rd : JVal) (post_id : String) :
    ((∃ r, fbAnalyticsBody ins rd = .ok r ∧ get_post_analytics ins rd = r)
      ∨ (∃ e, fbAnalyticsBody ins rd = .error e ∧ get_post_analytics ins rd = fbErrorAnalytics))
    ∧ ((∃ r, internalBody post_id ins = .ok r ∧ get_post_analytics_internal post_id ins = r)
      ∨ (∃ e, internalBody post_id ins = .error e
          ∧ get_post_analytics_internal post_id ins = internalErrorRecord post_id))
    ∧ (insightsHasEntry ins "post_impressions" = false →
        fieldOf (get_post_analytics ins rd) "views" = some (.jnum 0))
    ∧ (insightsHasEntry ins "post_engaged_users" = false →
        fieldOf (get_post_analytics ins rd) "engaged_users" = some (.jnum 0))
    ∧ (insightsHasEntry ins "post_clicks" = false →
        fieldOf (get_post_analytics ins rd) "clicks" = some (.jnum 0))
    ∧ (insightsHasEntry ins "post_reactions_by_type_total" = false →
        summaryTotal? rd = none →
        fieldOf (get_post_analytics ins rd) "likes" = some (.jnum 0))
    ∧ (insightsHasEntry ins "post_impressions" = false →
        fieldOf (get_post_analytics_internal post_id ins) "views" = some (.jnum 0))
    ∧ (insightsHasEntry ins "post_clicks" = false →
        fieldOf (get_post_analytics_internal post_id ins) "clicks" = some (.jnum 0))
    ∧ (insightsHasEntry ins "post_reactions_by_type_total" = false →
        fieldOf (get_post_analytics_internal post_id ins) "likes" = some (.jnum 0)) := by
  have hfb : ∀ {r}, fbAnalyticsBody ins rd = .ok r → get_post_analytics ins rd = r := by
    intro r hb
    simp [get_post_analytics, hb]
  have hfe : ∀ {e}, fbAnalyticsBody ins rd = .error e →
      get_post_analytics ins rd = fbErrorAnalytics := by
    intro e hb
    simp [get_post_analytics, hb]
  have hib : ∀ {r}, internalBody post_id ins = .ok r →
      get_post_analytics_internal post_id ins = r := by
    intro r hb
    simp [get_post_analytics_internal, hb]
  have hie : ∀ {e}, internalBody post_id ins = .error e →
      get_post_analytics_internal post_id ins = internalErrorRecord post_id := by
    intro e hb
    simp [get_post_analytics_internal, hb]
  have hfield : ∀ (n fld : String), fld ≠ "likes" →
      (∀ {items a1}, fbLoop items fbInitFields = .ok a1 →
        items.any (isEntryNamed n) = false →
        objGet? a1 fld = objGet? fbInitFields fld) →
      objGet? fbInitFields fld = some (.jnum 0) →
      fieldOf fbErrorAnalytics fld = some (.jnum 0) →
      insightsHasEntry ins n = false →
      fieldOf (get_post_analytics ins rd) fld = some (.jnum 0) := by
    intro n fld hfld hloop hinit herr hins
    cases hb : fbAnalyticsBody ins rd with
    | error e => rw [hfe hb]; exact herr
    | ok r =>
      rw [hfb hb]
      obtain ⟨a, a', hpart, hsum, rfl⟩ := fbAnalyticsBody_ok_shape hb
      have h1 : objGet? a' fld = objGet? a fld := (fbSummaryStep_spec hsum).2.2 fld hfld
      have h2 : objGet? a fld = objGet? fbInitFields fld :=
        fbInsightsPart_field_init hpart n fld (fun _ _ ha hn => hloop ha hn) hins
      show objGet? a' fld = some (.jnum 0)
      rw [h1, h2, hinit]
  refine ⟨?_, ?_, ?_, ?_, ?_, ?_, ?_, ?_, ?_⟩
  · cases hb : fbAnalyticsBody ins rd with
    | error e => exact Or.inr ⟨e, rfl, hfe hb⟩
    | ok r => exact Or.inl ⟨r, rfl, hfb hb⟩
  · cases hb : internalBody post_id ins with
    | error e => exact Or.inr ⟨e, rfl, hie hb⟩
    | ok r => exact Or.inl ⟨r, rfl, hib hb⟩
  · exact hfield "post_impressions" "views" (by decide)
      (fun ha hn => (fbLoop_fields ha).1 hn) rfl rfl
  · exact hfield "post_engaged_users" "engaged_users" (by decide)
      (fun ha hn => (fbLoop_fields ha).2.1 hn) rfl rfl
  · exact hfield "post_clicks" "clicks" (by decide)
      (fun ha hn => (fbLoop_fields ha).2.2.1 hn) rfl rfl
  · intro hins hsumnone
    cases hb : fbAnalyticsBody ins rd with
    | error e => rw [hfe hb]; rfl
    | ok r =>
      rw [hfb hb]
      obtain ⟨a, a', hpart, hsum, rfl⟩ := fbAnalyticsBody_ok_shape hb
      have h1 : a' = a := (fbSummaryStep_spec hsum).1 hsumnone
      subst h1
      have h2 : objGet? a' "likes" = objGet? fbInitFields "likes" :=
        fbInsightsPart_field_init hpart "post_reactions_by_type_total" "likes"
          (fun _ _ ha hn => (fbLoop_fields ha).2.2.2 hn) hins
      show objGet? a' "likes" = some (.jnum 0)
      rw [h2]
      rfl
  · intro hins
    cases hb : internalBody post_id ins with
    | error e => rw [hie hb]; rfl
    | ok r =>
      rw [hib hb]
      rcases internalBody_ok_shape hb with rfl | ⟨items, st, rfl, hloop, hany⟩
      · rfl
      · have h1 := (internalLoop_fields hloop).1 "post_impressions" (by decide)
          (hany _ hins)
        simp [internalSuccessRecord, fieldOf, objGet?, h1, metricsGetStr]
  · intro hins
    cases hb : internalBody post_id ins with
    | error e => rw [hie hb]; rfl
    | ok r =>
      rw [hib hb]
      rcases internalBody_ok_shape hb with rfl | ⟨items, st, rfl, hloop, hany⟩
      · rfl
      · have h1 := (internalLoop_fields hloop).1 "post_clicks" (by decide) (hany _ hins)
        simp [internalSuccessRecord, fieldOf, objGet?, h1, metricsGetStr]
  · intro hins
    cases hb : internalBody post_id ins with
    | error e => rw [hie hb]; rfl
    | ok r =>
      rw [hib hb]
      rcases internalBody_ok_shape hb with rfl | ⟨items, st, rfl, hloop, hany⟩
      · rfl
      · have h1 := ((internalLoop_fields hloop).2 (hany _ hins)).1
        simp [internalSuccessRecord, fieldOf, objGet?, h1]

/-- C1 amended witness: on a concrete insights body with an empty metric list
and an empty reactions body, all numeric fields of both variants are zero. -/
theorem c1_amended_witness :
    fieldOf (get_post_analytics (.jobj [("data", .jarr [])]) (.jobj [])) "views"
      = some (.jnum 0)
    ∧ fieldOf (get_post_analytics (.jobj [("data", .jarr [])]) (.jobj [])) "engaged_users"
      = some (.jnum 0)
    ∧ fieldOf (get_post_analytics (.jobj [("data", .jarr [])]) (.jobj [])) "clicks"
      = some (.jnum 0)
    ∧ fieldOf (get_post_analytics (.jobj [("data", .jarr [])]) (.jobj [])) "likes"
      = some (.jnum 0)
    ∧ fieldOf (get_post_analytics_internal "p" (.jobj [("data", .jarr [])])) "views"
      = some (.jnum 0)
    ∧ fieldOf (get_post_analytics_internal "p" (.jobj [("data", .jarr [])])) "clicks"
      = some (.jnum 0)
    ∧ fieldOf (get_post_analytics_internal "p" (.jobj [("data", .jarr [])])) "likes"
      = some (.jnum 0) :=
  ⟨(c1_amended (.jobj [("data", .jarr [])]) (.jobj []) "p").2.2.1 rfl,
   (c1_amended (.jobj [("data", .jarr [])]) (.jobj []) "p").2.2.2.1 rfl,
   (c1_amended (.jobj [("data", .jarr [])]) (.jobj []) "p").2.2.2.2.1 rfl,
   (c1_amended (.jobj [("data", .jarr [])]) (.jobj []) "p").2.2.2.2.2.1 rfl rfl,
   (c1_amended (.jobj [("data", .jarr [])]) (.jobj []) "p").2.2.2.2.2.2.1 rfl,
   (c1_amended (.jobj [("data", .jarr [])]) (.jobj []) "p").2.2.2.2.2.2.2.1 rfl,
   (c1_amended (.jobj [("data", .jarr [])]) (.jobj []) "p").2.2.2.2.2.2.2.2 rfl⟩

/-- Destructuring a true `isEntryNamed`. -/
theorem isEntryNamed_true {n : String} {m : JVal} (h : isEntryNamed n m = true) :
    ∃ mf, m = .jobj mf ∧ objGet? mf "name" = some (.jstr n) := by
  cases m <;> simp [isEntryNamed] at h
  next mf =>
    cases hg : objGet? mf "name" with
    | none => rw [hg] at h; cases h
    | some v =>
      rw [hg] at h
      cases v <;> simp [pyStrEqVal] at h
      next t =>
        subst h
        exact ⟨mf, rfl, hg⟩

/-- The `data` list of metric entries of a well-shaped insights body. -/
def insightsItems? (ins : JVal) : Option (List JVal) :=
  match ins with
  | .jobj f =>
    match objGet? f "data" with
    | some (.jarr items) => some items
    | _ => none
  | _ => none

/-- The `metadata.reactions.total` field of a record. -/
def metaReactionsTotal? (r : JVal) : Option JVal :=
  match fieldOf r "metadata" with
  | some meta =>
    match fieldOf meta "reactions" with
    | some rx => fieldOf rx "total"
    | none => none
  | none => none

/-- On a well-shaped insights body the posts-variant insights phase is exactly
the metrics loop. -/
theorem fbInsightsPart_items {ins : JVal} {items : List JVal} {a : List (String × JVal)}
    (hi : insightsItems? ins = some items) (h : fbInsightsPart ins = .ok a) :
    fbLoop items fbInitFields = .ok a := by
  cases ins <;> simp [insightsItems?] at hi
  next f =>
    cases hg : objGet? f "data" with
    | none => rw [hg] at hi; cases hi
    | some d =>
      rw [hg] at hi
      cases d <;> simp at hi
      next xs =>
        subst hi
        unfold fbInsightsPart at h
        simpa [pyInStr, containsKey, hg, pySubscriptStr, pyIterate] using h

/-- On a well-shaped insights body a successful internal-variant body run is a
success record built by the metrics loop. -/
theorem internalBody_items {post_id : String} {ins r : JVal} {items : List JVal}
    (hi : insightsItems? ins = some items) (hb : internalBody post_id ins = .ok r) :
    ∃ st, internalLoop items ⟨[], .jnum 0, []⟩ = .ok st
      ∧ r = internalSuccessRecord post_id st := by
  cases ins <;> simp [insightsItems?] at hi
  next f =>
    cases hg : objGet? f "data" with
    | none => rw [hg] at hi; cases hi
    | some d =>
      rw [hg] at hi
      cases d <;> simp at hi
      next xs =>
        subst hi
        unfold internalBody at hb
        simp only [pyInStr, containsKey, hg, pySubscriptStr, pyIterate,
          Option.isSome_some] at hb
        split at hb
        · cases hb
        next st hloop =>
          cases hb
          exact ⟨st, hloop, rfl⟩

/-- When the metric list contains exactly one reactions-by-type entry, with a
dict value that sums to `s`, a successful posts-variant loop leaves
`likes` equal to `s`. -/
theorem fbLoop_likes_single {items : List JVal} {a a' : List (String × JVal)} {m : JVal}
    {d : List (String × JVal)} {s : Int}
    (h : fbLoop items a = .ok a')
    (hfil : items.filter (isEntryNamed "post_reactions_by_type_total") = [m])
    (hm : fbMetricValue m = .ok (.jobj d))
    (hs : pySumValues d = .ok s) :
    objGet? a' "likes" = some (.jnum s) := by
  induction items generalizing a with
  | nil => simp at hfil
  | cons x rest ih =>
    unfold fbLoop at h
    split at h
    · cases h
    next a1 hstep =>
      by_cases hx : isEntryNamed "post_reactions_by_type_total" x = true
      · rw [List.filter_cons_of_pos hx] at hfil
        simp only [List.cons.injEq] at hfil
        obtain ⟨rfl, hrest⟩ := hfil
        have hany : rest.any (isEntryNamed "post_reactions_by_type_total") = false := by
          rw [List.any_eq_false]
          intro y hy
          exact (List.filter_eq_nil.mp hrest) y hy
        have hpres := (fbLoop_fields h).2.2.2 hany
        rw [hpres]
        obtain ⟨mf, rfl, hgname⟩ := isEntryNamed_true hx
        have hname : pySubscriptStr (.jobj mf) "name"
            = .ok (.jstr "post_reactions_by_type_total") := by
          simp [pySubscriptStr, hgname]
        unfold fbLoopStep at hstep
        split at hstep
        next e heq => rw [hname] at heq; cases heq
        next nameV heq =>
          rw [hname] at heq
          cases heq
          split at hstep
          next hc => simp [pyStrEqVal] at hc
          next =>
            split at hstep
            next hc => simp [pyStrEqVal] at hc
            next =>
              split at hstep
              next hc => simp [pyStrEqVal] at hc
              next =>
                split at hstep
                next =>
                  split at hstep
                  next e heq2 => rw [hm] at heq2; cases heq2
                  next reactions heq2 =>
                    rw [hm] at heq2
                    cases heq2
                    split at hstep
                    · cases hstep
                    next a2 hmeta =>
                      simp only [hs] at hstep
                      cases hstep
                      exact objGet?_objSet_self a2 "likes" (.jnum s)
                next hc => simp [pyStrEqVal] at hc
      · rw [Bool.not_eq_true] at hx
        rw [List.filter_cons_of_neg (by simp [hx])] at hfil
        have hpres := (fbLoopStep_fields hstep).2.2.2 hx
        rw [ih h hfil]

/-- When the metric list contains exactly one reactions-by-type entry whose
(non-empty) `values[0].value` is a dict summing to `s`, a successful internal
loop ends with `total_reactions = s`. -/
theorem internalLoop_total_single {items : List JVal} {st st' : InternalState}
    {mf v0f d : List (String × JVal)} {v0 : JVal} {vrest : List JVal} {s : Int}
    (h : internalLoop items st = .ok st')
    (hfil : items.filter (isEntryNamed "post_reactions_by_type_total") = [.jobj mf])
    (hvals : objGet? mf "values" = some (.jarr (v0 :: vrest)))
    (hv0 : v0 = .jobj v0f)
    (hval : objGet? v0f "value" = some (.jobj d))
    (hs : pySumValues d = .ok s) :
    st'.total_reactions = .jnum s := by
  have hgname : objGet? mf "name" = some (.jstr "post_reactions_by_type_total") := by
    have hmem : (.jobj mf : JVal) ∈
        items.filter (isEntryNamed "post_reactions_by_type_total") := by
      rw [hfil]; exact List.mem_singleton.mpr rfl
    have := List.of_mem_filter hmem
    obtain ⟨mf', heq, hg⟩ := isEntryNamed_true this
    injection heq with heq'
    rw [heq']
    exact hg
  induction items generalizing st with
  | nil => simp at hfil
  | cons x rest ih =>
    unfold internalLoop at h
    split at h
    · cases h
    next st1 hstep =>
      by_cases hx : isEntryNamed "post_reactions_by_type_total" x = true
      · rw [List.filter_cons_of_pos hx] at hfil
        simp only [List.cons.injEq] at hfil
        obtain ⟨rfl, hrest⟩ := hfil
        have hany : rest.any (isEntryNamed "post_reactions_by_type_total") = false := by
          rw [List.any_eq_false]
          intro y hy
          exact (List.filter_eq_nil.mp hrest) y hy
        have hstep_eq : internalStep st (.jobj mf)
            = .ok ⟨metricsSet.metricsSetGo st.metrics (.jstr "total_reactions") (.jnum s),
                .jnum s, d⟩ := by
          subst hv0
          simp [internalStep, pyGet, hvals, truthy, pySubscriptStr, pyLen,
            fbMetricValue, pyIndexNat, hval, hgname, pyStrEqVal, hs, metricsSet]
        rw [hstep_eq] at hstep
        cases hstep
        exact ((internalLoop_fields h).2 hany).1
      · rw [Bool.not_eq_true] at hx
        rw [List.filter_cons_of_neg (by simp [hx])] at hfil
        exact ih h hfil

/-- C2 counterexample: the reactions endpoint returns `total_count = 7`, but a
malformed insights body makes the insights processing raise, so the whole
record falls back to zeros and the reaction total is 0, not 7 — the
reactions-endpoint summary does not always win. -/
theorem c2_counterexample :
    summaryTotal? (.jobj [("summary", .jobj [("total_count", .jnum 7)])]) = some (.jnum 7)
    ∧ fieldOf
        (get_post_analytics (.jobj [("data", .jarr [.jnum 5])])
          (.jobj [("summary", .jobj [("total_count", .jnum 7)])]))
        "likes" = some (.jnum 0) := ⟨rfl, rfl⟩

/-- C2 (amended): provided the analytics fetch completes without an exception,
the posts-variant `likes` equals the reactions-endpoint summary `total_count`
whenever that is present (the summary overwrites the insights-derived sum),
and equals the sum of the values of the (unique) `post_reactions_by_type_total`
mapping when the summary is absent; in the internal variant, which never calls
the reactions endpoint, both `likes` and `metadata.reactions.total` equal the
sum of the values of that mapping. -/
theorem c2_amended (ins rd : JVal) (post_id : String) :
    (∀ r tc, fbAnalyticsBody ins rd = .ok r → summaryTotal? rd = some tc →
        fieldOf (get_post_analytics ins rd) "likes" = some tc)
    ∧ (∀ r items m d s, fbAnalyticsBody ins rd = .ok r → summaryTotal? rd = none →
        insightsItems? ins = some items →
        items.filter (isEntryNamed "post_reactions_by_type_total") = [m] →
        fbMetricValue m = .ok (.jobj d) → pySumValues d = .ok s →
        fieldOf (get_post_analytics ins rd) "likes" = some (.jnum s))
    ∧ (∀ r items mf v0 v0f vrest d s, internalBody post_id ins = .ok r →
        insightsItems? ins = some items →
        items.filter (isEntryNamed "post_reactions_by_type_total") = [.jobj mf] →
        objGet? mf "values" = some (.jarr (v0 :: vrest)) → v0 = .jobj v0f →
        objGet? v0f "value" = some (.jobj d) → pySumValues d = .ok s →
        fieldOf (get_post_analytics_internal post_id ins) "likes" = some (.jnum s)
        ∧ metaReactionsTotal? (get_post_analytics_internal post_id ins)
            = some (.jnum s)) := by
  refine ⟨?_, ?_, ?_⟩
  · intro r tc hb hsum
    have hres : get_post_analytics ins rd = r := by simp [get_post_analytics, hb]
    rw [hres]
    obtain ⟨a, a', hpart, hstep, rfl⟩ := fbAnalyticsBody_ok_shape hb
    have := (fbSummaryStep_spec hstep).2.1 tc hsum
    subst this
    exact objGet?_objSet_self a "likes" tc
  · intro r items m d s hb hsum hitems hfil hm hs
    have hres : get_post_analytics ins rd = r := by simp [get_post_analytics, hb]
    rw [hres]
    obtain ⟨a, a', hpart, hstep, rfl⟩ := fbAnalyticsBody_ok_shape hb
    have haa : a' = a := (fbSummaryStep_spec hstep).1 hsum
    subst haa
    have hlp := fbInsightsPart_items hitems hpart
    exact fbLoop_likes_single hlp hfil hm hs
  · intro r items mf v0 v0f vrest d s hb hitems hfil hvals hv0 hval hs
    have hres : get_post_analytics_internal post_id ins = r := by
      simp [get_post_analytics_internal, hb]
    rw [hres]
    obtain ⟨st, hloop, rfl⟩ := internalBody_items hitems hb
    have htot := internalLoop_total_single hloop hfil hvals hv0 hval hs
    constructor
    · simp [internalSuccessRecord, fieldOf, objGet?, htot]
    · simp [internalSuccessRecord, metaReactionsTotal?, fieldOf, objGet?, htot]

/-- A sample insights body with exactly one reactions-by-type entry whose
breakdown sums to 5. -/
def sampleByTypeInsights : JVal :=
  .jobj [("data", .jarr [.jobj
    [("name", .jstr "post_reactions_by_type_total"),
     ("values", .jarr [.jobj [("value",
        .jobj [("like", .jnum 2), ("love", .jnum 3)])]])]])]

/-- C2 amended witness: with an empty metric list and a summary total of 7 the
posts-variant reaction total is 7; with a single by-type mapping summing to 5
and no summary, both variants report 5. -/
theorem c2_amended_witness :
    fieldOf
      (get_post_analytics (.jobj [("data", .jarr [])])
        (.jobj [("summary", .jobj [("total_count", .jnum 7)])])) "likes" = some (.jnum 7)
    ∧ fieldOf (get_post_analytics sampleByTypeInsights (.jobj [])) "likes" = some (.jnum 5)
    ∧ fieldOf (get_post_analytics_internal "p" sampleByTypeInsights) "likes"
        = some (.jnum 5)
    ∧ metaReactionsTotal? (get_post_analytics_internal "p" sampleByTypeInsights)
        = some (.jnum 5) :=
  ⟨(c2_amended (.jobj [("data", .jarr [])])
      (.jobj [("summary", .jobj [("total_count", .jnum 7)])]) "p").1 _ _ rfl rfl,
   (c2_amended sampleByTypeInsights (.jobj []) "p").2.1 _ _ _ _ _ rfl rfl rfl rfl rfl rfl,
   ((c2_amended sampleByTypeInsights (.jobj []) "p").2.2
      _ _ _ _ _ _ _ _ rfl rfl rfl rfl rfl rfl rfl).1,
   ((c2_amended sampleByTypeInsights (.jobj []) "p").2.2
      _ _ _ _ _ _ _ _ rfl rfl rfl rfl rfl rfl rfl).2⟩

/-- The `metadata.lastUpdated` field of a record. -/
def metaLastUpdated? (r : JVal) : Option JVal :=
  match fieldOf r "metadata" with
  | some meta => fieldOf meta "lastUpdated"
  | none => none

/-- C4 counterexample: a malformed insights body makes the posts-variant fetch
fail, and the returned fallback record carries no `lastUpdated` field at all —
contradicting the claim that every failure path of both variants tags the
record with `lastUpdated: "error"`. -/
theorem c4_counterexample :
    fbAnalyticsBody (.jobj [("data", .jarr [.jbool true])]) (.jobj [])
      = .error .typeError
    ∧ metaLastUpdated?
        (get_post_analytics (.jobj [("data", .jarr [.jbool true])]) (.jobj [])) = none :=
  ⟨rfl, rfl⟩

/-- C4 (amended): on any failure of the fetch, `get_post_analytics_internal`
returns the all-zero record tagged `lastUpdated: "error"` (both on an exception
and on the early `'data' not in insights_data` return), while
`FacebookPosts.get_post_analytics` returns an all-zero record with empty
reactions metadata and no `lastUpdated` field at all. -/
theorem c4_amended (ins rd : JVal) (post_id : String) :
    (∀ e, fbAnalyticsBody ins rd = .error e → get_post_analytics ins rd = fbErrorAnalytics)
    ∧ fieldOf fbErrorAnalytics "views" = some (.jnum 0)
    ∧ fieldOf fbErrorAnalytics "engaged_users" = some (.jnum 0)
    ∧ fieldOf fbErrorAnalytics "clicks" = some (.jnum 0)
    ∧ fieldOf fbErrorAnalytics "likes" = some (.jnum 0)
    ∧ metaLastUpdated? fbErrorAnalytics = none
    ∧ (∀ e, internalBody post_id ins = .error e →
        get_post_analytics_internal post_id ins = internalErrorRecord post_id)
    ∧ (pyInStr "data" ins = .ok false →
        get_post_analytics_internal post_id ins = internalErrorRecord post_id)
    ∧ fieldOf (internalErrorRecord post_id) "views" = some (.jnum 0)
    ∧ fieldOf (internalErrorRecord post_id) "likes" = some (.jnum 0)
    ∧ fieldOf (internalErrorRecord post_id) "clicks" = some (.jnum 0)
    ∧ metaLastUpdated? (internalErrorRecord post_id) = some (.jstr "error") := by
  refine ⟨?_, rfl, rfl, rfl, rfl, rfl, ?_, ?_, rfl, rfl, rfl, rfl⟩
  · intro e hb
    simp [get_post_analytics, hb]
  · intro e hb
    simp [get_post_analytics_internal, hb]
  · intro hfalse
    have hbody : internalBody post_id ins = .ok (internalErrorRecord post_id) := by
      unfold internalBody
      simp only [hfalse]
    simp [get_post_analytics_internal, hbody]

/-- C4 amended witness: concrete failing fetches — a non-dict insights body
(every subscript raises) and a body without `data`. -/
theorem c4_amended_witness :
    get_post_analytics (.jnum 1) (.jobj []) = fbErrorAnalytics
    ∧ get_post_analytics_internal "p" (.jnum 1) = internalErrorRecord "p"
    ∧ get_post_analytics_internal "q" (.jobj []) = internalErrorRecord "q" :=
  ⟨(c4_amended (.jnum 1) (.jobj []) "p").1 .typeError rfl,
   (c4_amended (.jnum 1) (.jobj []) "p").2.2.2.2.2.2.1 .typeError rfl,
   (c4_amended (.jobj []) (.jobj []) "q").2.2.2.2.2.2.2.1 rfl⟩

/-! ## MistralClient (src/src/ai/mistral_client.py) -/

/-- The instance attribute dict of a `MistralClient` after `__init__`
(mistral_client.py lines 13-15): only `api_key` and `base_url` are ever
assigned; in particular neither `default_model` nor `timeout` exists.
Values are kept as strings, which is exact for the two attributes that
exist (the ones that do not never produce a value). -/
def mistralClientDict (api_key : String) : List (String × String) :=
  [("api_key", api_key), ("base_url", "https://api.mistral.ai/v1/chat/completions")]

/-- Python attribute lookup `self.<name>`: `AttributeError` when absent. -/
def pyGetAttr (attrs : List (String × String)) (name : String) : Except PyErr String :=
  match attrs.find? (fun p => p.1 = name) with
  | some p => .ok p.2
  | none => .error .attributeError

/-- The HTTP request `chat_complete` would hand to `requests.post`
(mistral_client.py line 150); returned on success in place of the network
interaction. -/
structure HttpRequest where
  url : String
  model : String
  messages : List (String × String)
  timeout : String

/-- `MistralClient.chat_complete` (mistral_client.py lines 120-150) up to the
point where the HTTP request would be issued.  `raise RuntimeError` when the
api key is falsy; `model = model or self.default_model` reads the unassigned
`default_model` attribute when `model` is falsy; the `requests.post` call
evaluates `timeout=self.timeout`, reading the unassigned `timeout`
attribute, before any request is sent. -/
def chat_complete (api_key : String) (model : Option String)
    (messages : List (String × String)) : Except PyErr HttpRequest :=
  if api_key = "" then .error (.runtimeError "MistralClient: MISTRAL_API_KEY is not set")
  else
    match (match model with
           | some m => if m = "" then pyGetAttr (mistralClientDict api_key) "default_model"
                       else .ok m
           | none => pyGetAttr (mistralClientDict api_key) "default_model") with
    | .error e => .error e
    | .ok m =>
      match pyGetAttr (mistralClientDict api_key) "timeout" with
      | .error e => .error e
      | .ok t =>
        .ok ⟨"https://api.mistral.ai/v1/chat/completions", m, messages, t⟩

/-- The model argument `analyze_posts` and `generate_post_copy` resolve before
calling `chat_complete` (mistral_client.py lines 177 and 268):
`model or os.getenv("MCP_MODEL_TEXT", "mistral-medium-latest")`. -/
def resolveModel (env_model : Option String) (model : Option String) : String :=
  match model with
  | some m => if m = "" then env_model.getD "mistral-medium-latest" else m
  | none => env_model.getD "mistral-medium-latest"

/-- `MistralClient.analyze_posts` (mistral_client.py lines 165-222) up to its
`chat_complete` call: everything after that call runs only if the call
returns. -/
def analyze_posts_request (api_key : String) (env_model : Option String)
    (model : Option String) (messages : List (String × String)) : Except PyErr HttpRequest :=
  chat_complete api_key (some (resolveModel env_model model)) messages

/-- `MistralClient.generate_post_copy` (mistral_client.py lines 246-300) up to
its `chat_complete` call. -/
def generate_post_copy_request (api_key : String) (env_model : Option String)
    (model : Option String) (messages : List (String × String)) : Except PyErr HttpRequest :=
  chat_complete api_key (some (resolveModel env_model model)) messages

/-- C5: with a non-empty api key, every invocation of `chat_complete` raises
`AttributeError` before any HTTP request is issued (no `HttpRequest` value is
ever produced): when `model` is falsy the unassigned `default_model` attribute
is read, otherwise the unassigned `timeout` attribute is read while building
the `requests.post` call.  Consequently `analyze_posts` and
`generate_post_copy`, whose resolved model reaches the same code, can never
return successfully. -/
theorem c5_chat_complete_attribute_error :
    (∀ (api_key : String) (model : Option String) (messages : List (String × String)),
      api_key ≠ "" → chat_complete api_key model messages = .error .attributeError)
    ∧ (∀ (api_key : String) (env_model model : Option String)
        (messages : List (String × String)), api_key ≠ "" →
        analyze_posts_request api_key env_model model messages = .error .attributeError)
    ∧ (∀ (api_key : String) (env_model model : Option String)
        (messages : List (String × String)), api_key ≠ "" →
        generate_post_copy_request api_key env_model model messages
          = .error .attributeError) := by
  have hmain : ∀ (api_key : String) (model : Option String)
      (messages : List (String × String)),
      api_key ≠ "" → chat_complete api_key model messages = .error .attributeError := by
    intro api_key model messages hk
    unfold chat_complete
    rw [if_neg hk]
    cases model with
    | none => simp [pyGetAttr, mistralClientDict]
    | some m =>
      by_cases hm : m = ""
      · simp [hm, pyGetAttr, mistralClientDict]
      · simp [hm, pyGetAttr, mistralClientDict]
  exact ⟨hmain,
    fun api_key env_model model messages hk => hmain api_key _ messages hk,
    fun api_key env_model model messages hk => hmain api_key _ messages hk⟩

/-- C5 witness: a concrete key and arguments. -/
theorem c5_witness :
    chat_complete "k" (some "mistral-medium-latest") [] = .error .attributeError
    ∧ analyze_posts_request "k" none none [] = .error .attributeError
    ∧ generate_post_copy_request "k" none none [] = .error .attributeError :=
  ⟨c5_chat_complete_attribute_error.1 "k" (some "mistral-medium-latest") [] (by decide),
   c5_chat_complete_attribute_error.2.1 "k" none none [] (by decide),
   c5_chat_complete_attribute_error.2.2 "k" none none [] (by decide)⟩

/-! ## Image-URL extraction (src/src/tools/post_generation_tools.py) -/

/-- The ASCII whitespace characters of Python's `\s` / `str.strip`. -/
def isPyWs (c : Char) : Bool :=
  c = ' ' || c = '\t' || c = '\n' || c = '\r' || c = Char.ofNat 11 || c = Char.ofNat 12

/-- Python `str.strip()`: drop leading and trailing whitespace. -/
def pyStrip (l : List Char) : List Char :=
  ((l.dropWhile isPyWs).reverse.dropWhile isPyWs).reverse

/-- A character allowed by the `[^\s"']` classes of `IMG_URL_RE`. -/
def isUrlBodyChar (c : Char) : Bool :=
  !(isPyWs c || c = '"' || c = Char.ofNat 39)

/-- The alternation `(?:png|jpg|jpeg|webp|gif)` of `IMG_URL_RE`. -/
def urlExts : List (List Char) :=
  ["png", "jpg", "jpeg", "webp", "gif"].map String.data

/-- Does the whole candidate (already lowercased for `re.IGNORECASE`) match
`https?://[^\s"']+\.(?:png|jpg|jpeg|webp|gif)(?:\?[^\s"']*)?` to its end?
The split points of the greedy pieces are existentially quantified, which is
what regex backtracking computes. -/
def fullUrlMatch (u : List Char) : Bool :=
  let lu := u.map Char.toLower
  let r? : Option (List Char) :=
    if ("https://".data).isPrefixOf lu then some (lu.drop 8)
    else if ("http://".data).isPrefixOf lu then some (lu.drop 7)
    else none
  match r? with
  | none => false
  | some r =>
    (List.range r.length).any (fun i =>
      decide (r.get? i = some '.')
      && decide (0 < i)
      && (r.take i).all isUrlBodyChar
      && urlExts.any (fun e =>
          e.isPrefixOf (r.drop (i + 1))
          && (let q := (r.drop (i + 1)).drop e.length
              q.isEmpty
              || (decide (q.head? = some '?') && q.tail.all isUrlBodyChar))))

/-- `IMG_URL_RE.search(s)` (post_generation_tools.py lines 23-26): the pattern
is anchored at `$`, which in Python matches at the end of the string or just
before a trailing newline, so a match is a suffix of the string or of the
string without its final newline. -/
def imgUrlSearch (s : List Char) : Bool :=
  (if s.getLast? = some '\n' then [s, s.dropLast] else [s]).any
    (fun t => (List.range (t.length + 1)).any (fun i => fullUrlMatch (t.drop i)))

/-- Python `str.lower()`, as a character list (kernel-computable, unlike
`String.toLower`). -/
def pyLowerStr (k : String) : List Char := k.data.map Char.toLower

mutual
/-- `_collect_image_urls` (post_generation_tools.py lines 28-45): recursive
walk appending matches to `found` in traversal order. -/
def collect_image_urls : JVal → List String → List String
  | .jnull, found => found
  | .jobj fields, found => collectFields fields found
  | .jarr items, found => collectItems items found
  | .jstr s, found => if imgUrlSearch s.data then found ++ [s] else found
  | .jbool _, found => found
  | .jnum _, found => found

/-- The `for k, v in obj.items()` loop of `_collect_image_urls`: a string
value is appended when the key is `url`/`image_url` and the regex matches, or
— the `elif` — when the regex matches regardless of the key; other values are
walked recursively. -/
def collectFields : List (String × JVal) → List String → List String
  | [], found => found
  | (k, v) :: rest, found =>
    collectFields rest
      (match v with
       | .jstr s =>
         if (pyLowerStr k = "url".data || pyLowerStr k = "image_url".data)
             && imgUrlSearch s.data then
           found ++ [s]
         else if imgUrlSearch s.data then found ++ [s]
         else found
       | v' => collect_image_urls v' found)

/-- The `for it in obj` loop of `_collect_image_urls`. -/
def collectItems : List JVal → List String → List String
  | [], found => found
  | v :: rest, found => collectItems rest (collect_image_urls v found)
end

/-- The dedup comprehension of `post_generation` (post_generation_tools.py
line 151): keep the first occurrence of each URL, preserving order. -/
def pyDedupGo (seen : List String) : List String → List String
  | [] => []
  | x :: rest => if x ∈ seen then pyDedupGo seen rest else x :: pyDedupGo (x :: seen) rest

/-- `[u for u in urls if not (u in seen or seen.add(u))]`. -/
def pyDedup (l : List String) : List String := pyDedupGo [] l

theorem pyDedupGo_sublist (seen : List String) (l : List String) :
    List.Sublist (pyDedupGo seen l) l := by
  induction l generalizing seen with
  | nil => simp [pyDedupGo]
  | cons x rest ih =>
    unfold pyDedupGo
    split_ifs with hx
    · exact (ih seen).cons x
    · exact (ih (x :: seen)).cons₂ x

theorem pyDedupGo_mem (seen : List String) (l : List String) (x : String) :
    x ∈ pyDedupGo seen l ↔ x ∈ l ∧ x ∉ seen := by
  induction l generalizing seen with
  | nil => simp [pyDedupGo]
  | cons y rest ih =>
    unfold pyDedupGo
    split_ifs with hy
    · rw [ih seen]
      constructor
      · exact fun ⟨h1, h2⟩ => ⟨List.mem_cons_of_mem y h1, h2⟩
      · rintro ⟨h1, h2⟩
        rcases List.mem_cons.mp h1 with rfl | h1
        · exact absurd hy h2
        · exact ⟨h1, h2⟩
    · constructor
      · intro hx
        rcases List.mem_cons.mp hx with rfl | hx
        · exact ⟨List.mem_cons_self x rest, hy⟩
        · have := (ih (y :: seen)).mp hx
          exact ⟨List.mem_cons_of_mem y this.1,
            fun hs => this.2 (List.mem_cons_of_mem y hs)⟩
      · rintro ⟨h1, h2⟩
        rcases List.mem_cons.mp h1 with rfl | h1
        · exact List.mem_cons_self x _
        · by_cases hxy : x = y
          · subst hxy
            exact List.mem_cons_self x _
          · exact List.mem_cons_of_mem y ((ih (y :: seen)).mpr
              ⟨h1, fun hs => (List.mem_cons.mp hs).elim hxy h2⟩)

theorem pyDedupGo_nodup (seen : List String) (l : List String) :
    (pyDedupGo seen l).Nodup := by
  induction l generalizing seen with
  | nil => simp [pyDedupGo]
  | cons x rest ih =>
    unfold pyDedupGo
    split_ifs with hx
    · exact ih seen
    · refine List.nodup_cons.mpr ⟨?_, ih (x :: seen)⟩
      intro hmem
      exact ((pyDedupGo_mem (x :: seen) rest x).mp hmem).2 (List.mem_cons_self x seen)

/-- C6 counterexample: a string sitting under a key named `url` that does not
match the image-extension pattern is NOT collected — the `elif` makes the
key check redundant, so the collector keeps only pattern-matching strings,
contradicting the claim that every string under `url`/`image_url` is
collected. -/
theorem c6_counterexample :
    collect_image_urls (.jobj [("url", .jstr "https://x/y")]) [] = [] := by
  simp only [collect_image_urls, collectFields]
  decide

/-- C6 (amended): for a string value under any dict key, the key is
irrelevant — the string is collected iff it matches the image-extension URL
pattern (first conjunct); the claim's nested three-levels-deep example returns
exactly the image URL, once, in first-seen order (second conjunct); and the
dedup of `post_generation` keeps exactly the distinct URLs, preserving
first-seen order (a duplicate-free sublist with the same members). -/
theorem c6_amended :
    (∀ (k s : String) (found : List String),
      collectFields [(k, .jstr s)] found
        = if imgUrlSearch s.data then found ++ [s] else found)
    ∧ pyDedup (collect_image_urls
        (.jobj [("a", .jobj [("b", .jobj
            [("image_url", .jstr "https://x/y.png"), ("note", .jstr "hello")]),
          ("c", .jstr "world")])]) []) = ["https://x/y.png"]
    ∧ (∀ l : List String,
        (pyDedup l).Nodup ∧ List.Sublist (pyDedup l) l ∧ (∀ x, x ∈ pyDedup l ↔ x ∈ l)) := by
  refine ⟨?_, ?_, ?_⟩
  case refine_2 =>
    simp only [collect_image_urls, collectFields, pyDedup, pyDedupGo]
    decide
  · intro k s found
    by_cases hs : imgUrlSearch s.data = true
    · simp [collectFields, hs]
    · rw [Bool.not_eq_true] at hs
      simp [collectFields, hs]
  · intro l
    refine ⟨pyDedupGo_nodup [] l, pyDedupGo_sublist [] l, ?_⟩
    intro x
    rw [pyDedup, pyDedupGo_mem]
    simp

/-! ## Chart building (src/src/tools/chart_tools.py) -/

/-- The digit run of Python `int(str)` parsing (grouping underscores are not
modelled; no stored analytics value uses them). -/
def digitsVal : List Char → Option Nat
  | [] => none
  | cs =>
    if cs.all Char.isDigit then
      some (cs.foldl (fun a c => a * 10 + (c.toNat - 48)) 0)
    else none

/-- Python `int(s)` on a string: optional surrounding whitespace, optional
sign, a non-empty digit run. -/
def parseIntString (cs : List Char) : Option Int :=
  match pyStrip cs with
  | '-' :: rest => (digitsVal rest).map (fun n => -(n : Int))
  | '+' :: rest => (digitsVal rest).map (fun n => (n : Int))
  | t => (digitsVal t).map (fun n => (n : Int))

/-- `_safe_int` (chart_tools.py lines 70-74): `int(x)` with every exception
mapped to 0. -/
def safe_int (x : JVal) : Int :=
  match x with
  | .jnum n => n
  | .jbool b => cond b 1 0
  | .jstr s => (parseIntString s.data).getD 0
  | _ => 0

/-- The metrics dict `{"views": ..., "likes": ..., "reactions": ...}` built by
`_extract_metrics`. -/
structure Metrics where
  views : Int
  likes : Int
  reactions : Int
  deriving DecidableEq, Repr

/-- `m.get(metric, 0)` on the metrics dict. -/
def metricsGet (m : Metrics) (name : String) : Int :=
  if name = "views" then m.views
  else if name = "likes" then m.likes
  else if name = "reactions" then m.reactions
  else 0

/-- Python `x or d` for JSON values. -/
def pyOr (v dflt : JVal) : JVal := if truthy v then v else dflt

/-- `_extract_metrics` (chart_tools.py lines 76-84). -/
def extract_metrics (post : JVal) : Except PyErr Metrics :=
  match pyGet post "analytics" (.jobj []) with
  | .error e => .error e
  | .ok a0 =>
    let a := pyOr a0 (.jobj [])
    match pyGet a "views" (.jnum 0) with
    | .error e => .error e
    | .ok vv =>
      match pyGet a "likes" (.jnum 0) with
      | .error e => .error e
      | .ok lv =>
        match pyGet a "metadata" (.jobj []) with
        | .error e => .error e
        | .ok md0 =>
          match pyGet (pyOr md0 (.jobj [])) "reactions" (.jobj []) with
          | .error e => .error e
          | .ok rx0 =>
            match pyOr rx0 (.jobj []) with
            | .jobj rf =>
              .ok ⟨safe_int vv, safe_int lv,
                safe_int lv + (rf.map (fun p => safe_int p.2)).foldl (· + ·) 0⟩
            | _ => .error .attributeError

/-- One row of the chart tables. -/
structure ChartRow where
  post_id : String
  snippet : String
  value : Int
  deriving DecidableEq, Repr

/-- Python `str()` of a JSON value.  Scalar cases are exact; for lists and
dicts (which no stored `post_id` is, and no claim exercises) the `repr`
quoting of nested strings is simplified to plain text. -/
def pyStr : JVal → String
  | .jstr s => s
  | .jnum n => toString n
  | .jbool b => cond b "True" "False"
  | .jnull => "None"
  | .jarr _ => "[...]"
  | .jobj _ => "{...}"

/-- `(p.get("text") or p.get("content") or "").strip()` followed by the
60-character ellipsis (chart_tools.py lines 97-98 and 167-168). -/
def snippetOf (p : JVal) : Except PyErr String :=
  match pyGet p "text" .jnull with
  | .error e => .error e
  | .ok t1 =>
    match pyGet p "content" .jnull with
    | .error e => .error e
    | .ok t2 =>
      match pyOr (pyOr t1 t2) (.jstr "") with
      | .jstr s =>
        let t := pyStrip s.data
        .ok (String.mk (if 60 < t.length then t.take 60 ++ "…".data else t))
      | _ => .error .attributeError

/-- `str(p.get("post_id", "")) or "?"`. -/
def pidOf (p : JVal) : Except PyErr String :=
  match pyGet p "post_id" (.jstr "") with
  | .error e => .error e
  | .ok v => .ok (if pyStr v = "" then "?" else pyStr v)

/-- One iteration of the `_build_overview_bar` loop (chart_tools.py
lines 95-109). -/
def overviewRow (p : JVal) (metric : String) : Except PyErr (String × Int × ChartRow) :=
  match pidOf p with
  | .error e => .error e
  | .ok pid =>
    match snippetOf p with
    | .error e => .error e
    | .ok sh =>
      match extract_metrics p with
      | .error e => .error e
      | .ok m =>
        let val := metricsGet m metric
        .ok ("#" ++ pid, val, ⟨pid, sh, val⟩)

/-- `_build_overview_bar` (chart_tools.py lines 91-126): the chart labels, the
chart data and the table, in input order. -/
def build_overview_bar (posts : List JVal) (metric : String) :
    Except PyErr (List String × List Int × List ChartRow) :=
  match posts with
  | [] => .ok ([], [], [])
  | p :: rest =>
    match overviewRow p metric with
    | .error e => .error e
    | .ok (label, val, row) =>
      match build_overview_bar rest metric with
      | .error e => .error e
      | .ok (ls, ds, tb) => .ok (label :: ls, val :: ds, row :: tb)

/-- The `scored` rows of `_build_top_posts` (chart_tools.py lines 164-170). -/
def buildScored (posts : List JVal) (metric : String) : Except PyErr (List ChartRow) :=
  match posts with
  | [] => .ok []
  | p :: rest =>
    match pidOf p with
    | .error e => .error e
    | .ok pid =>
      match snippetOf p with
      | .error e => .error e
      | .ok sh =>
        match extract_metrics p with
        | .error e => .error e
        | .ok m =>
          match buildScored rest metric with
          | .error e => .error e
          | .ok tb => .ok (⟨pid, sh, metricsGet m metric⟩ :: tb)

/-- Insertion into a descending run: an element goes before the first row
whose value does not exceed it, so equal values keep their relative order. -/
def insertDesc (x : ChartRow) : List ChartRow → List ChartRow
  | [] => [x]
  | y :: ys => if y.value ≤ x.value then x :: y :: ys else y :: insertDesc x ys

/-- `scored.sort(key=lambda x: x[metric], reverse=True)`: a stable descending
sort (Python's sort is stable and `reverse=True` preserves stability). -/
def pySortByDesc (l : List ChartRow) : List ChartRow := l.foldr insertDesc []

/-- `_build_top_posts` (chart_tools.py lines 163-194): sort descending, take
`max 1 top_n`, return labels, data and the top table. -/
def build_top_posts (posts : List JVal) (metric : String) (top_n : Nat) :
    Except PyErr (List String × List Int × List ChartRow) :=
  match buildScored posts metric with
  | .error e => .error e
  | .ok scored =>
    let top := (pySortByDesc scored).take (max 1 top_n)
    .ok (top.map (fun r => "#" ++ r.post_id), top.map (fun r => r.value), top)

theorem insertDesc_perm (x : ChartRow) (l : List ChartRow) :
    List.Perm (insertDesc x l) (x :: l) := by
  induction l with
  | nil => simp [insertDesc]
  | cons y ys ih =>
    unfold insertDesc
    split_ifs with h
    · exact List.Perm.refl _
    · exact ((ih.cons y).trans (List.Perm.swap x y ys))

theorem insertDesc_pairwise (x : ChartRow) (l : List ChartRow)
    (h : l.Pairwise (fun a b => b.value ≤ a.value)) :
    (insertDesc x l).Pairwise (fun a b => b.value ≤ a.value) := by
  induction l with
  | nil => simp [insertDesc]
  | cons y ys ih =>
    unfold insertDesc
    split_ifs with hy
    · refine List.Pairwise.cons ?_ h
      intro b hb
      rcases List.mem_cons.mp hb with rfl | hb
      · exact hy
      · exact le_trans ((List.pairwise_cons.mp h).1 b hb) hy
    · push_neg at hy
      have h' := List.pairwise_cons.mp h
      refine List.Pairwise.cons ?_ (ih h'.2)
      intro b hb
      have := (insertDesc_perm x ys).mem_iff.mp hb
      rcases List.mem_cons.mp this with rfl | hb'
      · exact le_of_lt hy
      · exact h'.1 b hb'

theorem pySortByDesc_perm (l : List ChartRow) : List.Perm (pySortByDesc l) l := by
  induction l with
  | nil => simp [pySortByDesc]
  | cons x xs ih =>
    have : pySortByDesc (x :: xs) = insertDesc x (pySortByDesc xs) := rfl
    rw [this]
    exact (insertDesc_perm x (pySortByDesc xs)).trans (ih.cons x)

theorem pySortByDesc_sorted (l : List ChartRow) :
    (pySortByDesc l).Pairwise (fun a b => b.value ≤ a.value) := by
  induction l with
  | nil => simp [pySortByDesc]
  | cons x xs ih => exact insertDesc_pairwise x (pySortByDesc xs) ih

/-- C9: on the two-post input with metric `views`, the overview preset yields
labels `#1, #2` and data `10, 30` in input order, and the top-posts preset
with `top_n = 1` yields exactly the row for post 2 with 30 views; moreover the
sort used by the top-posts preset always produces a descending permutation of
the scored rows (stability is by construction of `insertDesc`: insertion stops
before the first row of equal value). -/
theorem c9_charts :
    build_overview_bar
      [ .jobj [("post_id", .jstr "1"), ("analytics", .jobj [("views", .jnum 10)])],
        .jobj [("post_id", .jstr "2"), ("analytics", .jobj [("views", .jnum 30)])] ]
      "views"
      = .ok (["#1", "#2"], [10, 30], [⟨"1", "", 10⟩, ⟨"2", "", 30⟩])
    ∧ build_top_posts
        [ .jobj [("post_id", .jstr "1"), ("analytics", .jobj [("views", .jnum 10)])],
          .jobj [("post_id", .jstr "2"), ("analytics", .jobj [("views", .jnum 30)])] ]
        "views" 1
      = .ok (["#2"], [30], [⟨"2", "", 30⟩])
    ∧ (∀ l : List ChartRow, List.Perm (pySortByDesc l) l
        ∧ (pySortByDesc l).Pairwise (fun a b => b.value ≤ a.value)) :=
  ⟨rfl, rfl, fun l => ⟨pySortByDesc_perm l, pySortByDesc_sorted l⟩⟩

/-! ## analyze_posts reply parsing (src/src/ai/mistral_client.py lines 226-238)

The parsing stage is a function of the model reply text `raw`; under C5 the
enclosing `analyze_posts` never reaches it, so it is verified as the
code it would run on a reply. -/

/-- The two sentinel lines. -/
def startSent : List Char := "JSON_ONLY_START".data

/-- The closing sentinel. -/
def endSent : List Char := "JSON_ONLY_END".data

/-- `_strip_code_fences` (mistral_client.py lines 226-232): strip whitespace;
if the text starts with three backticks, drop them, an alphanumeric language
tag and one optional newline, and drop a trailing three backticks together
with one optional newline just before them. -/
def strip_code_fences (t0 : List Char) : List Char :=
  let t := pyStrip t0
  if ("```".data).isPrefixOf t then
    let t1 := (t.drop 3).dropWhile (fun c => c.isAlpha || c.isDigit)
    let t2 := match t1.head? with
      | some c => if c = '\n' then t1.drop 1 else t1
      | none => t1
    if ("```".data).isSuffixOf t2 then
      let t3 := t2.take (t2.length - 3)
      match t3.getLast? with
      | some c => if c = '\n' then t3.take (t3.length - 1) else t3
      | none => t3
    else t2
  else t

/-- The candidate positions of the closing `\}` of
`JSON_ONLY_START\s*(\{.*\})\s*JSON_ONLY_END` inside the text that follows the
opening brace: a `}` followed by whitespace and the closing sentinel.  The
greedy `.*` takes the last one. -/
def braceEnds (v : List Char) : List Nat :=
  (List.range v.length).filter (fun j =>
    decide (v.get? j = some '}') && endSent.isPrefixOf ((v.drop (j + 1)).dropWhile isPyWs))

/-- Try to match the sentinel pattern with the opening sentinel at position
`i`: after it, `\s*` must run up to a `{` (whitespace never is one), and the
greedy group ends at the last viable `}`. -/
def extractAt? (t : List Char) (i : Nat) : Option (List Char) :=
  if startSent.isPrefixOf (t.drop i) then
    let v := ((t.drop i).drop startSent.length).dropWhile isPyWs
    match v.head? with
    | some c =>
      if c = '{' then
        match (braceEnds v).getLast? with
        | some j => some (v.take (j + 1))
        | none => none
      else none
    | none => none
  else none

/-- `re.search(r"JSON_ONLY_START\s*(\{.*\})\s*JSON_ONLY_END", t, re.DOTALL)`:
the leftmost position where the pattern matches, returning group 1. -/
def sentinelSearch (t : List Char) : Option (List Char) :=
  ((List.range t.length).filterMap (fun i => extractAt? t i)).head?

/-- The error message prefix of the missing-sentinel `ValueError`
(mistral_client.py line 237). -/
def analyzeHeader : String := "Analysis: JSON_ONLY_* sentinels not found. First 400 chars:\n"

/-- The sentinel-extraction stage of `analyze_posts` (mistral_client.py
lines 233-238): strip code fences, search for the sentinel-delimited JSON,
raise `ValueError` with the first 400 characters of the stripped text when the
pattern is not found, and hand the matched group to `json.loads` otherwise. -/
def analyze_posts_extract (raw : String) : Except PyErr String :=
  let t := strip_code_fences raw.data
  match sentinelSearch t with
  | none => .error (.valueError (String.mk (analyzeHeader.data ++ t.take 400)))
  | some g => .ok (String.mk g)

theorem listContainsSub_iff (n l : List Char) : listContainsSub n l = true ↔ n <:+: l := by
  induction l with
  | nil => simp [listContainsSub, List.infix_nil, List.isEmpty_iff]
  | cons c rest ih =>
    simp only [listContainsSub, Bool.or_eq_true, List.isPrefixOf_iff_prefix, ih,
      List.infix_cons_iff]

theorem contains_false_mono {n t w : List Char} (hinf : t <:+: w)
    (hw : listContainsSub n w = false) : listContainsSub n t = false := by
  by_contra h
  rw [Bool.not_eq_false] at h
  have h1 := (listContainsSub_iff n t).mp h
  have h2 := (listContainsSub_iff n w).mpr (h1.trans hinf)
  rw [hw] at h2
  cases h2

theorem pyStrip_infix (l : List Char) : pyStrip l <:+: l := by
  unfold pyStrip
  have h1 : (l.dropWhile isPyWs) <:+ l := List.dropWhile_suffix _
  have h2 : ((l.dropWhile isPyWs).reverse.dropWhile isPyWs)
      <:+ (l.dropWhile isPyWs).reverse := List.dropWhile_suffix _
  have h3 : ((l.dropWhile isPyWs).reverse.dropWhile isPyWs).reverse
      <+: (l.dropWhile isPyWs) := by
    rw [← List.reverse_suffix, List.reverse_reverse]
    exact h2
  exact h3.isInfix.trans h1.isInfix

theorem strip_code_fences_infix (l : List Char) : strip_code_fences l <:+: l := by
  have hstrip := pyStrip_infix l
  unfold strip_code_fences
  by_cases h1 : ("```".data).isPrefixOf (pyStrip l) = true
  case neg =>
    simp only [h1, if_false, Bool.false_eq_true]
    exact hstrip
  case pos =>
    simp only [h1, if_true]
    have ht1 : ((pyStrip l).drop 3).dropWhile (fun c => c.isAlpha || c.isDigit)
        <:+: pyStrip l :=
      ((List.dropWhile_suffix _).trans (List.drop_suffix 3 (pyStrip l))).isInfix
    set t1 := ((pyStrip l).drop 3).dropWhile (fun c => c.isAlpha || c.isDigit) with hdef1
    have ht2 : ∀ t2 : List Char, t2 <:+: t1 →
        (if ("```".data).isSuffixOf t2 = true then
          match (t2.take (t2.length - 3)).getLast? with
          | some c => if c = '\n' then
              (t2.take (t2.length - 3)).take ((t2.take (t2.length - 3)).length - 1)
            else t2.take (t2.length - 3)
          | none => t2.take (t2.length - 3)
        else t2) <:+: l := by
      intro t2 h2
      have ht2l : t2 <:+: l := (h2.trans ht1).trans hstrip
      by_cases hsfx : ("```".data).isSuffixOf t2 = true
      · simp only [hsfx, if_true]
        have ht3 : t2.take (t2.length - 3) <:+: l :=
          (List.take_prefix _ t2).isInfix.trans ht2l
        cases hlast : (t2.take (t2.length - 3)).getLast? with
        | none => exact ht3
        | some c =>
          by_cases hc : c = '\n'
          · simp only [hc, if_true]
            exact (List.take_prefix _ _).isInfix.trans ht3
          · simp only [hc, if_false]
            exact ht3
      · simp only [hsfx]
        simp only [Bool.false_eq_true, if_false]
        exact ht2l
    cases hh : t1.head? with
    | none => exact ht2 t1 (List.infix_refl t1)
    | some c =>
      by_cases hc : c = '\n'
      · simp only [hh, hc, if_true]
        exact ht2 (t1.drop 1) (List.drop_suffix 1 t1).isInfix
      · simp only [hh, hc, if_false]
        exact ht2 t1 (List.infix_refl t1)

theorem extractAt?_none {t : List Char} (i : Nat)
    (h : listContainsSub startSent t = false ∨ listContainsSub endSent t = false) :
    extractAt? t i = none := by
  unfold extractAt?
  by_cases hp : startSent.isPrefixOf (t.drop i) = true
  · rcases h with hS | hE
    · exfalso
      have hinf : startSent <:+: t :=
        (List.isPrefixOf_iff_prefix.mp hp).isInfix.trans (List.drop_suffix i t).isInfix
      have := (listContainsSub_iff _ _).mpr hinf
      rw [hS] at this
      cases this
    · simp only [hp, if_true]
      set v := ((t.drop i).drop startSent.length).dropWhile isPyWs with hv
      have hvinf : v <:+: t :=
        ((List.dropWhile_suffix _).trans
          ((List.drop_suffix _ _).trans (List.drop_suffix i t))).isInfix
      have hbe : braceEnds v = [] := by
        refine List.filter_eq_nil.mpr ?_
        intro j _
        have hend : endSent.isPrefixOf ((v.drop (j + 1)).dropWhile isPyWs) = false := by
          by_contra hc
          rw [Bool.not_eq_false] at hc
          have hinf : endSent <:+: t :=
            ((List.isPrefixOf_iff_prefix.mp hc).isInfix.trans
              ((List.dropWhile_suffix _).trans (List.drop_suffix _ v)).isInfix).trans hvinf
          have := (listContainsSub_iff _ _).mpr hinf
          rw [hE] at this
          cases this
        simp [hend]
      cases hh : v.head? with
      | none => rfl
      | some c =>
        by_cases hc : c = '{'
        · simp only [hc, if_true, hbe]
          rfl
        · simp only [hc, if_false]
  · simp [hp]

/-- C10 counterexample: for the code-fenced reply "```(newline)no data(newline)```"
the raised message carries the first 400 characters of the fence-stripped text
("no data"), which does not contain the first 400 characters of the raw reply
(the backticks are gone) — so the claim that the message contains the first
400 characters of the raw reply is false at this input. -/
theorem c10_counterexample :
    analyze_posts_extract "```\nno data\n```"
      = .error (.valueError
          "Analysis: JSON_ONLY_* sentinels not found. First 400 chars:\nno data")
    ∧ listContainsSub ("```\nno data\n```".data.take 400)
        "Analysis: JSON_ONLY_* sentinels not found. First 400 chars:\nno data".data
      = false := ⟨rfl, rfl⟩

/-- C10 (amended): whenever the reply lacks one of the two sentinel lines, the
parsing stage raises `ValueError` (never a silent empty result) whose message
contains the phrase "sentinels not found" followed by the first 400 characters
of the whitespace- and code-fence-stripped reply (for an unfenced, unpadded
reply such as `"no data here"` this coincides with the raw reply). -/
theorem c10_amended (raw : String)
    (h : listContainsSub startSent raw.data = false
       ∨ listContainsSub endSent raw.data = false) :
    analyze_posts_extract raw
      = .error (.valueError (String.mk (analyzeHeader.data
          ++ (strip_code_fences raw.data).take 400))) := by
  have hstrip := strip_code_fences_infix raw.data
  have h' : listContainsSub startSent (strip_code_fences raw.data) = false
      ∨ listContainsSub endSent (strip_code_fences raw.data) = false :=
    h.imp (contains_false_mono hstrip) (contains_false_mono hstrip)
  have hs : sentinelSearch (strip_code_fences raw.data) = none := by
    unfold sentinelSearch
    have hnil : (List.range (strip_code_fences raw.data).length).filterMap
        (fun i => extractAt? (strip_code_fences raw.data) i) = [] :=
      List.filterMap_eq_nil.mpr (fun i _ => extractAt?_none i h')
    rw [hnil]
    rfl
  unfold analyze_posts_extract
  simp only [hs]

/-- C10 amended witness: the claim's own example reply. -/
theorem c10_amended_witness :
    analyze_posts_extract "no data here"
      = .error (.valueError
          "Analysis: JSON_ONLY_* sentinels not found. First 400 chars:\nno data here") :=
  c10_amended "no data here" (Or.inl rfl)

/-! ## JSON persistence (src/src/utils/data_manager.py)

`save_user_data` is `json.dump(data, f, indent=2)` (ensure_ascii default true,
separators therefore (',', ': ')); `load_user_data` is `json.load(f)` when the
file exists, `{}` otherwise.  Model restrictions, matching the data the module
stores: JSON numbers are integers (floats are outside the model) and strings
are sequences of unicode scalar values (lone surrogates are not
representable). -/

/-- The whitespace characters of the JSON grammar (what `json.load` skips). -/
def isJsonWs (c : Char) : Bool := c = ' ' || c = '\t' || c = '\n' || c = '\r'

/-- Skip JSON whitespace. -/
def skipWs (l : List Char) : List Char := l.dropWhile isJsonWs

/-- The two-spaces-per-level indentation of `json.dump(..., indent=2)`. -/
def indentChars (lvl : Nat) : List Char := List.replicate (2 * lvl) ' '

/-- The character of a decimal digit. -/
def digitChar (d : Nat) : Char := Char.ofNat (48 + d)

/-- Decimal digits of a natural number, most significant first (the fuel is
structural bookkeeping; `n + 1` is always enough). -/
def natDigitsAux : Nat → Nat → List Char
  | 0, _ => []
  | fuel + 1, n => if n < 10 then [digitChar n] else natDigitsAux fuel (n / 10) ++ [digitChar (n % 10)]

/-- Decimal digits of a natural number. -/
def natDigits (n : Nat) : List Char := natDigitsAux (n + 1) n

/-- `str(int)`: an optional minus sign and the decimal digits. -/
def dumpInt (n : Int) : List Char :=
  if n < 0 then '-' :: natDigits n.natAbs else natDigits n.natAbs

/-- Numeric value of a digit run. -/
def digitsNat (ds : List Char) : Nat := ds.foldl (fun a c => a * 10 + (c.toNat - 48)) 0

theorem digitChar_facts (n : Nat) (h : n < 10) :
    (digitChar n).isDigit = true ∧ (digitChar n).toNat = 48 + n := by
  interval_cases n <;> exact ⟨by decide, by decide⟩

theorem digitsNat_append_one (ds : List Char) (c : Char) :
    digitsNat (ds ++ [c]) = digitsNat ds * 10 + (c.toNat - 48) := by
  simp [digitsNat, List.foldl_append]

theorem natDigitsAux_shape (fuel n : Nat) (h : n < fuel) :
    (∀ c, c ∈ natDigitsAux fuel n → c.isDigit = true)
    ∧ natDigitsAux fuel n ≠ []
    ∧ digitsNat (natDigitsAux fuel n) = n := by
  induction fuel generalizing n with
  | zero => omega
  | succ fuel ih =>
    unfold natDigitsAux
    by_cases hn : n < 10
    · simp only [hn, if_true]
      refine ⟨?_, by simp, ?_⟩
      · intro c hc
        simp at hc
        subst hc
        exact (digitChar_facts n hn).1
      · simp [digitsNat]
        rw [(digitChar_facts n hn).2]
        omega
    · simp only [hn, if_false]
      have hd : n / 10 < fuel := by omega
      obtain ⟨ih1, ih2, ih3⟩ := ih (n / 10) hd
      refine ⟨?_, by simp, ?_⟩
      · intro c hc
        rcases List.mem_append.mp hc with hc | hc
        · exact ih1 c hc
        · simp at hc
          subst hc
          exact (digitChar_facts (n % 10) (by omega)).1
      · rw [digitsNat_append_one, ih3, (digitChar_facts (n % 10) (by omega)).2]
        omega

theorem natDigits_shape (n : Nat) :
    (∀ c, c ∈ natDigits n → c.isDigit = true)
    ∧ natDigits n ≠ []
    ∧ digitsNat (natDigits n) = n :=
  natDigitsAux_shape (n + 1) n (by omega)

theorem natDigitsAux_head_ne_zero (fuel n : Nat) (h : n < fuel) (h1 : 1 ≤ n) :
    (natDigitsAux fuel n).head? ≠ some '0' := by
  induction fuel generalizing n with
  | zero => omega
  | succ fuel ih =>
    unfold natDigitsAux
    by_cases hn : n < 10
    · simp only [hn, if_true]
      intro hc
      simp at hc
      have := congrArg Char.toNat hc
      rw [(digitChar_facts n hn).2] at this
      have h0 : ('0' : Char).toNat = 48 := by decide
      omega
    · simp only [hn, if_false]
      have hne := (natDigitsAux_shape fuel (n / 10) (by omega)).2.1
      rw [List.head?_append_of_ne_nil _ hne]
      exact ih (n / 10) (by omega) (by omega)

theorem takeWhile_append_of (p : Char → Bool) (ds rest : List Char)
    (h1 : ∀ c ∈ ds, p c = true)
    (h2 : ∀ c, rest.head? = some c → p c = false) :
    (ds ++ rest).takeWhile p = ds ∧ (ds ++ rest).dropWhile p = rest := by
  induction ds with
  | nil =>
    simp only [List.nil_append]
    cases rest with
    | nil => simp
    | cons c r =>
      have := h2 c rfl
      simp [List.takeWhile, List.dropWhile, this]
  | cons d ds ih =>
    have hd := h1 d (List.mem_cons_self d ds)
    have := ih (fun c hc => h1 c (List.mem_cons_of_mem d hc))
    simp [List.takeWhile, List.dropWhile, hd, this.1, this.2]

/-- The integer grammar of `json.load` restricted to the model: digits with no
leading zero, not followed by a fraction or exponent (floats are outside the
model), rejected otherwise. -/
def parseNumAux (l : List Char) : Option (Nat × List Char) :=
  let ds := l.takeWhile Char.isDigit
  let rest := l.dropWhile Char.isDigit
  if ds.isEmpty then none
  else if 1 < ds.length && ds.head? == some '0' then none
  else
    match rest.head? with
    | some c => if c = '.' || c = 'e' || c = 'E' then none else some (digitsNat ds, rest)
    | none => some (digitsNat ds, rest)

/-- A JSON number token. -/
def parseNumber (l : List Char) : Option (JVal × List Char) :=
  match l with
  | [] => none
  | c :: rest =>
    if c = '-' then (parseNumAux rest).map (fun p => (.jnum (-(p.1 : Int)), p.2))
    else (parseNumAux (c :: rest)).map (fun p => (.jnum (p.1 : Int), p.2))

theorem parseNumAux_digits (m : Nat) (rest : List Char)
    (hrest : ∀ c, rest.head? = some c →
      (c.isDigit || c = '.' || c = 'e' || c = 'E') = false) :
    parseNumAux (natDigits m ++ rest) = some (m, rest) := by
  obtain ⟨hdig, hne, hval⟩ := natDigits_shape m
  have htw := takeWhile_append_of Char.isDigit (natDigits m) rest hdig
    (fun c hc => by have := hrest c hc; simp at this; simp [this.1])
  unfold parseNumAux
  simp only [htw.1, htw.2]
  rw [if_neg (by simp [List.isEmpty_iff, hne])]
  have hlead : (1 < (natDigits m).length && (natDigits m).head? == some '0') = false := by
    by_cases hm : m < 10
    · have : natDigits m = [digitChar m] := by
        unfold natDigits natDigitsAux
        simp [hm]
      simp [this]
    · have := natDigitsAux_head_ne_zero (m + 1) m (by omega) (by omega)
      unfold natDigits
      simp only [Bool.and_eq_false_iff]
      right
      simpa using this
  rw [if_neg (by rw [hlead]; exact Bool.false_ne_true)]
  cases hr : rest.head? with
  | none => simp [hval]
  | some c =>
    have hc := hrest c hr
    simp only [Bool.or_eq_false_iff, decide_eq_false_iff_not] at hc
    simp [hc.1.1.2, hc.1.2, hc.2, hval]

theorem parseNumber_cons (c : Char) (l : List Char) :
    parseNumber (c :: l)
      = if c = '-' then (parseNumAux l).map (fun p => (.jnum (-(p.1 : Int)), p.2))
        else (parseNumAux (c :: l)).map (fun p => (.jnum (p.1 : Int), p.2)) := rfl

theorem parseNumber_dumpInt (n : Int) (rest : List Char)
    (hrest : ∀ c, rest.head? = some c →
      (c.isDigit || c = '.' || c = 'e' || c = 'E') = false) :
    parseNumber (dumpInt n ++ rest) = some (.jnum n, rest) := by
  have hend : parseNumAux (natDigits n.natAbs ++ rest) = some (n.natAbs, rest) :=
    parseNumAux_digits n.natAbs rest hrest
  unfold dumpInt
  by_cases hn : n < 0
  · simp only [hn, if_true, List.cons_append]
    rw [parseNumber_cons, if_pos rfl, hend]
    simp only [Option.map_some']
    rw [show (-(n.natAbs : Int)) = n by omega]
  · simp only [hn, if_false]
    have hadig := (natDigits_shape n.natAbs).1
    have hne := (natDigits_shape n.natAbs).2.1
    cases hd : natDigits n.natAbs with
    | nil => exact absurd hd hne
    | cons d ds =>
      have hddig : d.isDigit = true := hadig d (by rw [hd]; exact List.mem_cons_self d ds)
      have hdm : ¬ d = '-' := by
        intro hc
        subst hc
        simp [Char.isDigit] at hddig
      rw [List.cons_append, parseNumber_cons, if_neg hdm, ← List.cons_append, ← hd, hend]
      simp only [Option.map_some']
      rw [show ((n.natAbs : Int)) = n by omega]

/-- Lowercase hex digit, as `'\\u%04x' % n` produces. -/
def hexDigit (n : Nat) : Char :=
  if n < 10 then Char.ofNat (48 + n) else Char.ofNat (87 + n)

/-- Four hex digits of `n < 0x10000`. -/
def hex4 (n : Nat) : List Char :=
  [hexDigit (n / 4096 % 16), hexDigit (n / 256 % 16), hexDigit (n / 16 % 16), hexDigit (n % 16)]

/-- Value of one hex digit (`json.load` accepts both cases). -/
def hexDigitVal (c : Char) : Option Nat :=
  if 48 ≤ c.toNat ∧ c.toNat ≤ 57 then some (c.toNat - 48)
  else if 97 ≤ c.toNat ∧ c.toNat ≤ 102 then some (c.toNat - 87)
  else if 65 ≤ c.toNat ∧ c.toNat ≤ 70 then some (c.toNat - 55)
  else none

/-- Four hex digits after `\u`. -/
def parseHex4 (l : List Char) : Option (Nat × List Char) :=
  match l with
  | a :: b :: c :: d :: rest =>
    match hexDigitVal a, hexDigitVal b, hexDigitVal c, hexDigitVal d with
    | some x, some y, some z, some w => some (((x * 16 + y) * 16 + z) * 16 + w, rest)
    | _, _, _, _ => none
  | _ => none

theorem hexDigitVal_hexDigit (d : Nat) (h : d < 16) :
    hexDigitVal (hexDigit d) = some d := by
  interval_cases d <;> decide

theorem parseHex4_hex4 (n : Nat) (h : n < 65536) (rest : List Char) :
    parseHex4 (hex4 n ++ rest) = some (n, rest) := by
  unfold hex4 parseHex4
  simp only [List.cons_append, List.nil_append]
  rw [hexDigitVal_hexDigit _ (by omega), hexDigitVal_hexDigit _ (by omega),
    hexDigitVal_hexDigit _ (by omega), hexDigitVal_hexDigit _ (by omega)]
  show some (((n / 4096 % 16 * 16 + n / 256 % 16) * 16 + n / 16 % 16) * 16 + n % 16, rest)
      = some (n, rest)
  rw [show ((n / 4096 % 16 * 16 + n / 256 % 16) * 16 + n / 16 % 16) * 16 + n % 16 = n by omega]

/-- One character of `json.dump`'s `ensure_ascii` string escaping
(`c_encode_basestring_ascii`): the short named escapes, a literal for
printable ASCII, `\uXXXX` for the rest, surrogate pairs above the BMP. -/
def escapeChar (c : Char) : List Char :=
  if c = '"' then ['\\', '"']
  else if c = '\\' then ['\\', '\\']
  else if c = '\n' then ['\\', 'n']
  else if c = '\r' then ['\\', 'r']
  else if c = '\t' then ['\\', 't']
  else if c.toNat = 8 then ['\\', 'b']
  else if c.toNat = 12 then ['\\', 'f']
  else if c.toNat < 32 then '\\' :: 'u' :: hex4 c.toNat
  else if c.toNat ≤ 126 then [c]
  else if c.toNat < 65536 then '\\' :: 'u' :: hex4 c.toNat
  else
    '\\' :: 'u' :: hex4 (55296 + (c.toNat - 65536) / 1024)
      ++ '\\' :: 'u' :: hex4 (56320 + (c.toNat - 65536) % 1024)

/-- The escaped body of a dumped string, with the closing quote. -/
def dumpStrBody : List Char → List Char
  | [] => ['"']
  | c :: rest => escapeChar c ++ dumpStrBody rest

/-- A dumped JSON string. -/
def dumpStr (s : List Char) : List Char := '"' :: dumpStrBody s

/-- The named escapes of `json.load`. -/
def escMap (e : Char) : Option Char :=
  if e = '"' then some '"'
  else if e = '\\' then some '\\'
  else if e = '/' then some '/'
  else if e = 'b' then some (Char.ofNat 8)
  else if e = 'f' then some (Char.ofNat 12)
  else if e = 'n' then some '\n'
  else if e = 'r' then some '\r'
  else if e = 't' then some '\t'
  else none

/-- The body of a JSON string after the opening quote: literal characters up
to the closing quote, named escapes, `\uXXXX` with surrogate-pair
recombination.  (Lone surrogates, which CPython would keep in the `str`, are
not representable as unicode scalar values and are rejected; `json.dump`
never emits them.  Unescaped control characters, rejected by `json.load` in
strict mode, are accepted here; `json.dump` never emits them either.) -/
def parseStrBody : Nat → List Char → Option (List Char × List Char)
  | 0, _ => none
  | fuel + 1, l =>
    match l with
    | [] => none
    | c :: rest =>
      if c = '"' then some ([], rest)
      else if c = '\\' then
        match rest with
        | [] => none
        | e :: r2 =>
          if e = 'u' then
            match parseHex4 r2 with
            | none => none
            | some (n, r3) =>
              if 55296 ≤ n ∧ n < 56320 then
                match r3 with
                | '\\' :: 'u' :: r4 =>
                  match parseHex4 r4 with
                  | none => none
                  | some (n2, r5) =>
                    if 56320 ≤ n2 ∧ n2 < 57344 then
                      match parseStrBody fuel r5 with
                      | some (cs, r6) =>
                        some (Char.ofNat (65536 + (n - 55296) * 1024 + (n2 - 56320)) :: cs, r6)
                      | none => none
                    else none
                | _ => none
              else if 56320 ≤ n ∧ n < 57344 then none
              else
                match parseStrBody fuel r3 with
                | some (cs, r6) => some (Char.ofNat n :: cs, r6)
                | none => none
          else
            match escMap e with
            | none => none
            | some ec =>
              match parseStrBody fuel r2 with
              | some (cs, r6) => some (ec :: cs, r6)
              | none => none
      else
        match parseStrBody fuel rest with
        | some (cs, r6) => some (c :: cs, r6)
        | none => none

theorem char_valid_nat (c : Char) :
    c.toNat < 55296 ∨ (57343 < c.toNat ∧ c.toNat < 1114112) := by
  have h : c.toNat.isValidChar := c.valid
  rcases h with h | h
  · exact Or.inl h
  · exact Or.inr ⟨h.1, h.2⟩

theorem parseStrBody_escape_short (x c : Char) (cs rest : List Char) (fuel : Nat)
    (hesc : escMap x = some c) (hx : ¬ x = 'u')
    (ih : parseStrBody fuel (dumpStrBody cs ++ rest) = some (cs, rest)) :
    parseStrBody (fuel + 1) ((['\\', x] ++ dumpStrBody cs) ++ rest) = some (c :: cs, rest) := by
  simp [parseStrBody, hesc, hx, ih]

theorem parseStrBody_escape_u (n : Nat) (c : Char) (cs rest : List Char) (fuel : Nat)
    (hn : n < 65536) (hchar : Char.ofNat n = c)
    (hno1 : ¬(55296 ≤ n ∧ n < 56320)) (hno2 : ¬(56320 ≤ n ∧ n < 57344))
    (ih : parseStrBody fuel (dumpStrBody cs ++ rest) = some (cs, rest)) :
    parseStrBody (fuel + 1) ((('\\' :: 'u' :: hex4 n) ++ dumpStrBody cs) ++ rest)
      = some (c :: cs, rest) := by
  simp only [List.cons_append, List.append_assoc]
  have hx := parseHex4_hex4 n hn (dumpStrBody cs ++ rest)
  simp [parseStrBody, hx, hno1, hno2, ih, hchar]

theorem parseStrBody_escape_pair (hi lo : Nat) (c : Char) (cs rest : List Char) (fuel : Nat)
    (hhi : 55296 ≤ hi ∧ hi < 56320) (hlo : 56320 ≤ lo ∧ lo < 57344)
    (hchar : Char.ofNat (65536 + (hi - 55296) * 1024 + (lo - 56320)) = c)
    (ih : parseStrBody fuel (dumpStrBody cs ++ rest) = some (cs, rest)) :
    parseStrBody (fuel + 1)
      ((('\\' :: 'u' :: hex4 hi ++ '\\' :: 'u' :: hex4 lo) ++ dumpStrBody cs) ++ rest)
      = some (c :: cs, rest) := by
  simp only [List.cons_append, List.append_assoc]
  have hx1 := parseHex4_hex4 hi (by omega)
    ('\\' :: 'u' :: (hex4 lo ++ (dumpStrBody cs ++ rest)))
  have hx2 := parseHex4_hex4 lo (by omega) (dumpStrBody cs ++ rest)
  simp only [parseStrBody, List.cons_append, hx1, hx2, ih]
  simp [hhi, hlo, hchar]

theorem parseStrBody_escape_lit (c : Char) (cs rest : List Char) (fuel : Nat)
    (h1 : ¬ c = '"') (h2 : ¬ c = '\\')
    (ih : parseStrBody fuel (dumpStrBody cs ++ rest) = some (cs, rest)) :
    parseStrBody (fuel + 1) (([c] ++ dumpStrBody cs) ++ rest) = some (c :: cs, rest) := by
  simp [parseStrBody, h1, h2, ih]

theorem parseStrBody_escape (c : Char) (cs rest : List Char) (fuel : Nat)
    (ih : parseStrBody fuel (dumpStrBody cs ++ rest) = some (cs, rest)) :
    parseStrBody (fuel + 1) ((escapeChar c ++ dumpStrBody cs) ++ rest) = some (c :: cs, rest) := by
  have hval := char_valid_nat c
  by_cases h1 : c = '"'
  · subst h1
    exact parseStrBody_escape_short '"' '"' cs rest fuel rfl (by decide) ih
  by_cases h2 : c = '\\'
  · subst h2
    exact parseStrBody_escape_short '\\' '\\' cs rest fuel rfl (by decide) ih
  by_cases h3 : c = '\n'
  · subst h3
    exact parseStrBody_escape_short 'n' '\n' cs rest fuel rfl (by decide) ih
  by_cases h4 : c = '\r'
  · subst h4
    exact parseStrBody_escape_short 'r' '\r' cs rest fuel rfl (by decide) ih
  by_cases h5 : c = '\t'
  · subst h5
    exact parseStrBody_escape_short 't' '\t' cs rest fuel rfl (by decide) ih
  by_cases h6 : c.toNat = 8
  · have hc : c = Char.ofNat 8 := by rw [← h6, Char.ofNat_toNat]
    subst hc
    exact parseStrBody_escape_short 'b' (Char.ofNat 8) cs rest fuel rfl (by decide) ih
  by_cases h7 : c.toNat = 12
  · have hc : c = Char.ofNat 12 := by rw [← h7, Char.ofNat_toNat]
    subst hc
    exact parseStrBody_escape_short 'f' (Char.ofNat 12) cs rest fuel rfl (by decide) ih
  by_cases h8 : c.toNat < 32
  · have he : escapeChar c = '\\' :: 'u' :: hex4 c.toNat := by
      unfold escapeChar
      rw [if_neg h1, if_neg h2, if_neg h3, if_neg h4, if_neg h5, if_neg h6, if_neg h7,
        if_pos h8]
    rw [he]
    exact parseStrBody_escape_u c.toNat c cs rest fuel (by omega) (Char.ofNat_toNat c)
      (by omega) (by omega) ih
  by_cases h9 : c.toNat ≤ 126
  · have he : escapeChar c = [c] := by
      unfold escapeChar
      rw [if_neg h1, if_neg h2, if_neg h3, if_neg h4, if_neg h5, if_neg h6, if_neg h7,
        if_neg h8, if_pos h9]
    rw [he]
    exact parseStrBody_escape_lit c cs rest fuel h1 h2 ih
  by_cases h10 : c.toNat < 65536
  · have he : escapeChar c = '\\' :: 'u' :: hex4 c.toNat := by
      unfold escapeChar
      rw [if_neg h1, if_neg h2, if_neg h3, if_neg h4, if_neg h5, if_neg h6, if_neg h7,
        if_neg h8, if_neg h9, if_pos h10]
    rw [he]
    exact parseStrBody_escape_u c.toNat c cs rest fuel h10 (Char.ofNat_toNat c)
      (by omega) (by omega) ih
  · have he : escapeChar c = '\\' :: 'u' :: hex4 (55296 + (c.toNat - 65536) / 1024)
        ++ '\\' :: 'u' :: hex4 (56320 + (c.toNat - 65536) % 1024) := by
      unfold escapeChar
      rw [if_neg h1, if_neg h2, if_neg h3, if_neg h4, if_neg h5, if_neg h6, if_neg h7,
        if_neg h8, if_neg h9, if_neg h10]
    rw [he]
    refine parseStrBody_escape_pair (55296 + (c.toNat - 65536) / 1024)
      (56320 + (c.toNat - 65536) % 1024) c cs rest fuel (by omega) (by omega) ?_ ih
    rw [show 65536 + (55296 + (c.toNat - 65536) / 1024 - 55296) * 1024
        + (56320 + (c.toNat - 65536) % 1024 - 56320) = c.toNat by omega, Char.ofNat_toNat]

theorem escapeChar_ne_nil (c : Char) : escapeChar c ≠ [] := by
  unfold escapeChar
  repeat' split
  all_goals simp [hex4]

theorem dumpStrBody_length (s : List Char) : s.length < (dumpStrBody s).length := by
  induction s with
  | nil => simp [dumpStrBody]
  | cons c cs ih =>
    have h := escapeChar_ne_nil c
    have h1 : 1 ≤ (escapeChar c).length := by
      cases hc : escapeChar c with
      | nil => exact absurd hc h
      | cons a t => simp
    simp only [dumpStrBody, List.length_cons, List.length_append]
    omega

theorem parseStrBody_dump (s rest : List Char) (fuel : Nat) (h : s.length < fuel) :
    parseStrBody fuel (dumpStrBody s ++ rest) = some (s, rest) := by
  induction s generalizing fuel with
  | nil =>
    cases fuel with
    | zero => omega
    | succ f => simp [dumpStrBody, parseStrBody]
  | cons c cs ih =>
    cases fuel with
    | zero => simp at h
    | succ f =>
      have hcs : cs.length < f := by simp at h; omega
      simp only [dumpStrBody]
      exact parseStrBody_escape c cs rest f (ih f hcs)

theorem char_eq_of_toNat (c d : Char) (h : c.toNat = d.toNat) : c = d :=
  Char.ext (UInt32.ext h)

theorem isDigit_toNat (c : Char) (h : c.isDigit = true) :
    48 ≤ c.toNat ∧ c.toNat ≤ 57 := by
  simp [Char.isDigit] at h
  exact h

theorem skipWs_cons_ws (c : Char) (l : List Char) (h : isJsonWs c = true) :
    skipWs (c :: l) = skipWs l := by
  simp only [skipWs, List.dropWhile]
  rw [h]

theorem skipWs_cons_not (c : Char) (l : List Char) (h : isJsonWs c = false) :
    skipWs (c :: l) = c :: l := by
  simp only [skipWs, List.dropWhile]
  rw [h]

theorem isJsonWs_eq_false (c : Char) (h : ¬ c.toNat = 32) (h2 : ¬ c.toNat = 9)
    (h3 : ¬ c.toNat = 10) (h4 : ¬ c.toNat = 13) : isJsonWs c = false := by
  simp only [isJsonWs, Bool.or_eq_false_iff, decide_eq_false_iff_not]
  refine ⟨⟨⟨?_, ?_⟩, ?_⟩, ?_⟩ <;> intro he <;> subst he <;> simp at h h2 h3 h4

theorem skipWs_indent (n : Nat) (l : List Char) :
    skipWs (indentChars n ++ l) = skipWs l := by
  unfold indentChars
  induction (2 * n) with
  | zero => simp
  | succ m ih =>
    rw [List.replicate_succ, List.cons_append, skipWs_cons_ws _ _ (by decide)]
    exact ih

/-- The opening brace character. -/
def obChar : Char := Char.ofNat 123

/-- The closing brace character. -/
def cbChar : Char := Char.ofNat 125

mutual

/-- `json.dump(v, f, indent=2)` at nesting level `lvl` (with `indent` given and
`separators=None`, the separators are `','` and `': '`). -/
def dumpJ : JVal → Nat → List Char
  | .jnull, _ => ['n', 'u', 'l', 'l']
  | .jbool true, _ => ['t', 'r', 'u', 'e']
  | .jbool false, _ => ['f', 'a', 'l', 's', 'e']
  | .jnum n, _ => dumpInt n
  | .jstr s, _ => dumpStr s.data
  | .jarr [], _ => ['[', ']']
  | .jarr (x :: xs), lvl =>
    '[' :: '\n' :: (indentChars (lvl + 1) ++ dumpJ x (lvl + 1)
      ++ dumpArrItems xs (lvl + 1) ++ '\n' :: (indentChars lvl ++ [']']))
  | .jobj [], _ => [obChar, cbChar]
  | .jobj (f :: fs), lvl =>
    obChar :: '\n' :: (indentChars (lvl + 1) ++ dumpField f (lvl + 1)
      ++ dumpObjItems fs (lvl + 1) ++ '\n' :: (indentChars lvl ++ [cbChar]))

/-- One `"key": value` item. -/
def dumpField : String × JVal → Nat → List Char
  | (k, v), lvl => dumpStr k.data ++ ':' :: ' ' :: dumpJ v lvl

/-- The remaining array items, each preceded by `',\n' + indent`. -/
def dumpArrItems : List JVal → Nat → List Char
  | [], _ => []
  | x :: xs, lvl => ',' :: '\n' :: (indentChars lvl ++ dumpJ x lvl ++ dumpArrItems xs lvl)

/-- The remaining object items, each preceded by `',\n' + indent`. -/
def dumpObjItems : List (String × JVal) → Nat → List Char
  | [], _ => []
  | f :: fs, lvl => ',' :: '\n' :: (indentChars lvl ++ dumpField f lvl ++ dumpObjItems fs lvl)

end

/-- No string occurs twice (a Python dict's keys are distinct). -/
def nodupKeysB : List String → Bool
  | [] => true
  | k :: ks => !(ks.contains k) && nodupKeysB ks

mutual

/-- The values representable as Python data: every object (at any depth) has
distinct keys, as every Python dict does. -/
def wfJ : JVal → Bool
  | .jarr xs => wfList xs
  | .jobj fs => nodupKeysB (fs.map Prod.fst) && wfFields fs
  | _ => true

/-- All array elements well-formed. -/
def wfList : List JVal → Bool
  | [] => true
  | x :: xs => wfJ x && wfList xs

/-- All field values well-formed. -/
def wfFields : List (String × JVal) → Bool
  | [] => true
  | (_, v) :: fs => wfJ v && wfFields fs

end


mutual

/-- The value scanner of `json.load` (`scanner.c` / `decoder.py`), restricted
to the model: leading whitespace skipped, then an object, array, string,
literal keyword or integer.  The fuel bounds the recursion depth; each nested
call consumes at least one character, so `length + 1` is always enough. -/
def parseVal : Nat → List Char → Option (JVal × List Char)
  | 0, _ => none
  | fuel + 1, l =>
    match skipWs l with
    | [] => none
    | c :: rest =>
      if c = obChar then
        match skipWs rest with
        | [] => none
        | c2 :: r2 =>
          if c2 = cbChar then some (.jobj [], r2)
          else parseObjItems fuel [] (c2 :: r2)
      else if c = '[' then
        match skipWs rest with
        | [] => none
        | c2 :: r2 =>
          if c2 = ']' then some (.jarr [], r2)
          else
            match parseVal fuel (c2 :: r2) with
            | some (v, r3) => parseArrItems fuel [v] r3
            | none => none
      else if c = '"' then
        match parseStrBody (rest.length + 1) rest with
        | some (s, r2) => some (.jstr (String.mk s), r2)
        | none => none
      else if c = 't' then
        match rest with
        | 'r' :: 'u' :: 'e' :: r2 => some (.jbool true, r2)
        | _ => none
      else if c = 'f' then
        match rest with
        | 'a' :: 'l' :: 's' :: 'e' :: r2 => some (.jbool false, r2)
        | _ => none
      else if c = 'n' then
        match rest with
        | 'u' :: 'l' :: 'l' :: r2 => some (.jnull, r2)
        | _ => none
      else parseNumber (c :: rest)

/-- After the first array item: `,` then the next value, or `]` to close. -/
def parseArrItems : Nat → List JVal → List Char → Option (JVal × List Char)
  | 0, _, _ => none
  | fuel + 1, acc, l =>
    match skipWs l with
    | [] => none
    | c :: rest =>
      if c = ']' then some (.jarr acc, rest)
      else if c = ',' then
        match parseVal fuel rest with
        | some (v, r2) => parseArrItems fuel (acc ++ [v]) r2
        | none => none
      else none

/-- Object items, positioned at a key: `"key"`, `:`, value, then `,` (next
item) or the closing brace.  Bindings are added with `d[key] = value`
semantics (`objSet`), so a repeated key overwrites. -/
def parseObjItems : Nat → List (String × JVal) → List Char → Option (JVal × List Char)
  | 0, _, _ => none
  | fuel + 1, acc, l =>
    match l with
    | '"' :: r1 =>
      match parseStrBody (r1.length + 1) r1 with
      | some (k, r2) =>
        match skipWs r2 with
        | ':' :: r3 =>
          match parseVal fuel r3 with
          | some (v, r4) =>
            match skipWs r4 with
            | c :: r5 =>
              if c = cbChar then some (.jobj (objSet acc (String.mk k) v), r5)
              else if c = ',' then parseObjItems fuel (objSet acc (String.mk k) v) (skipWs r5)
              else none
            | [] => none
          | none => none
        | _ => none
      | none => none
    | _ => none

end

/-- `json.load` on the whole text: one value, then only trailing whitespace
(otherwise `Extra data`). -/
def jsonLoads (l : List Char) : Except PyErr JVal :=
  match parseVal (l.length + 1) l with
  | some (v, rest) =>
    if (skipWs rest).isEmpty then .ok v else .error (.valueError "Extra data")
  | none => .error (.valueError "Expecting value")

/-- `save_user_data(data)`: the credential file now holds
`json.dump(data, f, indent=2)`. -/
def save_user_data (data : List (String × JVal)) : Option (List Char) :=
  some (dumpJ (.jobj data) 0)

/-- `load_user_data()`: `{}` when the file does not exist, `json.load(f)`
otherwise. -/
def load_user_data (fs : Option (List Char)) : Except PyErr JVal :=
  match fs with
  | none => .ok (.jobj [])
  | some text => jsonLoads text

theorem stringMk_data (s : String) : String.mk s.data = s := rfl

theorem objSet_append_fresh (acc : List (String × JVal)) (k : String) (v : JVal)
    (h : ∀ p ∈ acc, ¬ p.1 = k) : objSet acc k v = acc ++ [(k, v)] := by
  induction acc with
  | nil => rfl
  | cons p rest ih =>
    obtain ⟨k', v'⟩ := p
    have hk : ¬ k' = k := h (k', v') (List.mem_cons_self _ _)
    simp only [objSet, if_neg hk, List.cons_append]
    rw [ih (fun q hq => h q (List.mem_cons_of_mem _ hq))]

theorem nodupKeysB_fresh (acc : List (String × JVal)) (k : String) (v : JVal)
    (fs : List (String × JVal))
    (h : nodupKeysB ((acc ++ (k, v) :: fs).map Prod.fst) = true) :
    ∀ p ∈ acc, ¬ p.1 = k := by
  induction acc with
  | nil => intro p hp; simp at hp
  | cons q rest ih =>
    simp only [List.cons_append, List.map_cons, nodupKeysB, Bool.and_eq_true,
      Bool.not_eq_true'] at h
    intro p hp
    rcases List.mem_cons.mp hp with hp | hp
    · subst hp
      intro he
      have h1 := h.1
      rw [List.contains_eq_any_beq, List.any_eq_false] at h1
      have hmem : k ∈ (rest ++ (k, v) :: fs).map Prod.fst := by
        simp
      have h2 := h1 k hmem
      exact h2 (by rw [he]; simp)
    · exact ih h.2 p hp

/-- The character after a serialized value inside a container or at the end of
the file: nothing, a comma, or the newline before the closing bracket. -/
def followOk (l : List Char) : Bool :=
  match l.head? with
  | none => true
  | some c => c = ',' || c = '\n'

theorem followOk_num (rest : List Char) (h : followOk rest = true) :
    ∀ c, rest.head? = some c → (c.isDigit || c = '.' || c = 'e' || c = 'E') = false := by
  intro c hc
  unfold followOk at h
  rw [hc] at h
  simp only [Bool.or_eq_true, decide_eq_true_eq] at h
  rcases h with h | h <;> subst h <;> decide

theorem dumpInt_shape (n : Int) :
    ∃ c t, dumpInt n = c :: t ∧ (c = '-' ∨ c.isDigit = true) := by
  unfold dumpInt
  by_cases hn : n < 0
  · exact ⟨'-', natDigits n.natAbs, by rw [if_pos hn], Or.inl rfl⟩
  · obtain ⟨hdig, hne, -⟩ := natDigits_shape n.natAbs
    cases hd : natDigits n.natAbs with
    | nil => exact absurd hd hne
    | cons c t =>
      refine ⟨c, t, by rw [if_neg hn], Or.inr ?_⟩
      exact hdig c (by rw [hd]; exact List.mem_cons_self c t)

theorem numHead_checks (c : Char) (h : c = '-' ∨ c.isDigit = true) :
    isJsonWs c = false ∧ ¬c = obChar ∧ ¬c = '[' ∧ ¬c = '"' ∧ ¬c = 't' ∧ ¬c = 'f'
      ∧ ¬c = 'n' ∧ ¬c = ']' := by
  rcases h with h | h
  · subst h; refine ⟨by decide, ?_⟩; decide
  · have hb := isDigit_toNat c h
    refine ⟨isJsonWs_eq_false c (by omega) (by omega) (by omega) (by omega),
      ?_, ?_, ?_, ?_, ?_, ?_, ?_⟩ <;>
      { intro he; rw [he] at h; exact absurd h (by decide) }

theorem dumpJ_head (v : JVal) (lvl : Nat) :
    ∃ c t, dumpJ v lvl = c :: t ∧ isJsonWs c = false ∧ ¬c = ']' := by
  cases v with
  | jnull => exact ⟨'n', _, rfl, by decide, by decide⟩
  | jbool b => cases b with
    | true => exact ⟨'t', _, rfl, by decide, by decide⟩
    | false => exact ⟨'f', _, rfl, by decide, by decide⟩
  | jnum n =>
    obtain ⟨c, t, hd, hc⟩ := dumpInt_shape n
    obtain ⟨hws, -, -, -, -, -, -, hrb⟩ := numHead_checks c hc
    exact ⟨c, t, by simp only [dumpJ]; rw [hd], hws, hrb⟩
  | jstr s => exact ⟨'"', _, rfl, by decide, by decide⟩
  | jarr xs => cases xs with
    | nil => exact ⟨'[', _, rfl, by decide, by decide⟩
    | cons x xs => exact ⟨'[', _, rfl, by decide, by decide⟩
  | jobj fs => cases fs with
    | nil => exact ⟨obChar, _, rfl, by decide, by decide⟩
    | cons f fs => exact ⟨obChar, _, rfl, by decide, by decide⟩

theorem followOk_arrItems (xs : List JVal) (l1 : Nat) (t : List Char) :
    followOk (dumpArrItems xs l1 ++ '\n' :: t) = true := by
  cases xs with
  | nil => simp [dumpArrItems, followOk]
  | cons x xs => simp [dumpArrItems, followOk]

theorem followOk_objItems (fs : List (String × JVal)) (l1 : Nat) (t : List Char) :
    followOk (dumpObjItems fs l1 ++ '\n' :: t) = true := by
  cases fs with
  | nil => simp [dumpObjItems, followOk]
  | cons f fs => simp [dumpObjItems, followOk]

theorem parseVal_cons_ws (fuel : Nat) (c : Char) (l : List Char) (h : isJsonWs c = true) :
    parseVal (fuel + 1) (c :: l) = parseVal (fuel + 1) l := by
  simp only [parseVal]
  rw [skipWs_cons_ws c l h]

theorem parseVal_indent (fuel n : Nat) (l : List Char) :
    parseVal (fuel + 1) (indentChars n ++ l) = parseVal (fuel + 1) l := by
  simp only [parseVal]
  rw [skipWs_indent]

theorem indentChars_length (n : Nat) : (indentChars n).length = 2 * n := by
  simp [indentChars]

theorem parseArr_step (fuel : Nat)
    (Pf : ∀ v lvl rest, (dumpJ v lvl).length < fuel → wfJ v = true → followOk rest = true →
      parseVal fuel (dumpJ v lvl ++ rest) = some (v, rest))
    (Qf : ∀ xs acc l1 l2 rest, (dumpArrItems xs l1).length < fuel → wfList xs = true →
      followOk rest = true →
      parseArrItems fuel acc (dumpArrItems xs l1 ++ '\n' :: (indentChars l2 ++ ']' :: rest))
        = some (.jarr (acc ++ xs), rest)) :
    ∀ xs acc l1 l2 rest, (dumpArrItems xs l1).length < fuel + 1 → wfList xs = true →
      followOk rest = true →
      parseArrItems (fuel + 1) acc (dumpArrItems xs l1 ++ '\n' :: (indentChars l2 ++ ']' :: rest))
        = some (.jarr (acc ++ xs), rest) := by
  intro xs acc l1 l2 rest hlen hwf hfol
  cases xs with
  | nil =>
    simp only [dumpArrItems, List.nil_append, List.append_nil, parseArrItems]
    rw [skipWs_cons_ws _ _ (by decide), skipWs_indent, skipWs_cons_not _ _ (by decide)]
    simp
  | cons x xs =>
    obtain ⟨c, t, hd, hws, hrb⟩ := dumpJ_head x l1
    simp only [wfList, Bool.and_eq_true] at hwf
    simp only [dumpArrItems, List.length_cons, List.length_append, indentChars_length] at hlen
    have hx1 : 1 ≤ (dumpJ x l1).length := by rw [hd]; simp
    cases fuel with
    | zero => omega
    | succ f =>
      simp only [dumpArrItems, List.cons_append, List.append_assoc]
      rw [parseArrItems.eq_2, skipWs_cons_not _ _ (by decide)]
      simp only [reduceIte]
      rw [parseVal_cons_ws f '\n' _ (by decide), parseVal_indent]
      rw [Pf x l1 _ (by omega) hwf.1 (followOk_arrItems xs l1 _)]
      rw [show acc ++ x :: xs = (acc ++ [x]) ++ xs by simp]
      exact Qf xs (acc ++ [x]) l1 l2 rest (by omega) hwf.2 hfol

theorem parseObj_step (fuel : Nat)
    (Pf : ∀ v lvl rest, (dumpJ v lvl).length < fuel → wfJ v = true → followOk rest = true →
      parseVal fuel (dumpJ v lvl ++ rest) = some (v, rest))
    (Rf : ∀ k v fs acc l1 l2 rest,
      (dumpField (k, v) l1).length + (dumpObjItems fs l1).length < fuel →
      wfJ v = true → wfFields fs = true →
      nodupKeysB ((acc ++ (k, v) :: fs).map Prod.fst) = true →
      followOk rest = true →
      parseObjItems fuel acc
        (dumpField (k, v) l1 ++ (dumpObjItems fs l1 ++ '\n' :: (indentChars l2 ++ cbChar :: rest)))
        = some (.jobj (acc ++ (k, v) :: fs), rest)) :
    ∀ k v fs acc l1 l2 rest,
      (dumpField (k, v) l1).length + (dumpObjItems fs l1).length < fuel + 1 →
      wfJ v = true → wfFields fs = true →
      nodupKeysB ((acc ++ (k, v) :: fs).map Prod.fst) = true →
      followOk rest = true →
      parseObjItems (fuel + 1) acc
        (dumpField (k, v) l1 ++ (dumpObjItems fs l1 ++ '\n' :: (indentChars l2 ++ cbChar :: rest)))
        = some (.jobj (acc ++ (k, v) :: fs), rest) := by
  intro k v fs acc l1 l2 rest hlen hwfv hwffs hnd hfol
  have hfresh := nodupKeysB_fresh acc k v fs hnd
  have hsb := dumpStrBody_length k.data
  simp only [dumpField, dumpStr, List.length_append, List.length_cons] at hlen
  cases fuel with
  | zero => omega
  | succ f =>
    simp only [dumpField, dumpStr, List.cons_append, List.append_assoc]
    rw [parseObjItems.eq_2]
    rw [parseStrBody_dump k.data _ _
      (by simp only [List.length_append]; omega)]
    simp only [reduceIte]
    rw [skipWs_cons_not _ _ (by decide)]
    simp only [reduceIte]
    rw [parseVal_cons_ws f ' ' _ (by decide)]
    rw [Pf v l1 _ (by omega) hwfv (followOk_objItems fs l1 _)]
    simp only [reduceIte]
    cases fs with
    | nil =>
      simp only [dumpObjItems, List.nil_append]
      rw [skipWs_cons_ws _ _ (by decide), skipWs_indent, skipWs_cons_not _ _ (by decide)]
      simp only [reduceIte, stringMk_data, if_pos rfl]
      rw [objSet_append_fresh acc k v hfresh]
    | cons f2 fs2 =>
      obtain ⟨k2, v2⟩ := f2
      simp only [wfFields, Bool.and_eq_true] at hwffs
      simp only [dumpObjItems, List.length_append, List.length_cons, indentChars_length,
        List.cons_append, List.append_assoc] at hlen ⊢
      rw [skipWs_cons_not _ _ (by decide)]
      simp only [reduceIte, stringMk_data]
      rw [if_neg (by decide)]
      rw [skipWs_cons_ws _ _ (by decide), skipWs_indent]
      simp only [dumpField, dumpStr, List.cons_append, List.append_assoc]
      rw [skipWs_cons_not _ _ (by decide)]
      rw [objSet_append_fresh acc k v hfresh]
      have hnd2 : nodupKeysB (((acc ++ [(k, v)]) ++ (k2, v2) :: fs2).map Prod.fst) = true := by
        simpa using hnd
      have hr := Rf k2 v2 fs2 (acc ++ [(k, v)]) l1 l2 rest (by omega) hwffs.1 hwffs.2 hnd2 hfol
      simp only [dumpField, dumpStr, List.cons_append, List.append_assoc,
        List.nil_append] at hr ⊢
      rw [hr]

theorem parseVal_step (fuel : Nat)
    (Pf : ∀ v lvl rest, (dumpJ v lvl).length < fuel → wfJ v = true → followOk rest = true →
      parseVal fuel (dumpJ v lvl ++ rest) = some (v, rest))
    (Qf : ∀ xs acc l1 l2 rest, (dumpArrItems xs l1).length < fuel → wfList xs = true →
      followOk rest = true →
      parseArrItems fuel acc (dumpArrItems xs l1 ++ '\n' :: (indentChars l2 ++ ']' :: rest))
        = some (.jarr (acc ++ xs), rest))
    (Rf : ∀ k v fs acc l1 l2 rest,
      (dumpField (k, v) l1).length + (dumpObjItems fs l1).length < fuel →
      wfJ v = true → wfFields fs = true →
      nodupKeysB ((acc ++ (k, v) :: fs).map Prod.fst) = true →
      followOk rest = true →
      parseObjItems fuel acc
        (dumpField (k, v) l1 ++ (dumpObjItems fs l1 ++ '\n' :: (indentChars l2 ++ cbChar :: rest)))
        = some (.jobj (acc ++ (k, v) :: fs), rest)) :
    ∀ v lvl rest, (dumpJ v lvl).length < fuel + 1 → wfJ v = true → followOk rest = true →
      parseVal (fuel + 1) (dumpJ v lvl ++ rest) = some (v, rest) := by
  intro v lvl rest hlen hwf hfol
  cases v with
  | jnull => rfl
  | jbool b => cases b <;> rfl
  | jnum n =>
    obtain ⟨c, t, hd, hc⟩ := dumpInt_shape n
    obtain ⟨hws, h1, h2, h3, h4, h5, h6, -⟩ := numHead_checks c hc
    simp only [dumpJ]
    rw [hd, List.cons_append, parseVal.eq_2, skipWs_cons_not _ _ hws]
    simp only []
    rw [if_neg h1, if_neg h2, if_neg h3, if_neg h4, if_neg h5, if_neg h6]
    rw [← List.cons_append, ← hd]
    exact parseNumber_dumpInt n rest (followOk_num rest hfol)
  | jstr s =>
    simp only [dumpJ, dumpStr, List.cons_append]
    rw [parseVal.eq_2, skipWs_cons_not _ _ (by decide)]
    simp only []
    rw [if_neg (by decide), if_neg (by decide), if_pos trivial]
    rw [parseStrBody_dump s.data rest _
      (by have := dumpStrBody_length s.data; simp only [List.length_append]; omega)]
  | jarr xs =>
    cases xs with
    | nil => rfl
    | cons x xs =>
      obtain ⟨c, t, hd, hws, hrb⟩ := dumpJ_head x (lvl + 1)
      simp only [wfJ, wfList, Bool.and_eq_true] at hwf
      simp only [dumpJ, List.length_cons, List.length_append, indentChars_length] at hlen
      have hx1 : 1 ≤ (dumpJ x (lvl + 1)).length := by rw [hd]; simp
      simp only [dumpJ, List.cons_append, List.append_assoc, List.nil_append]
      rw [parseVal.eq_2, skipWs_cons_not _ _ (by decide)]
      simp only []
      rw [if_neg (by decide), if_pos trivial]
      rw [skipWs_cons_ws _ _ (by decide), skipWs_indent]
      rw [show dumpJ x (lvl + 1) ++ (dumpArrItems xs (lvl + 1)
            ++ '\n' :: (indentChars lvl ++ (']' :: rest)))
          = c :: (t ++ (dumpArrItems xs (lvl + 1)
            ++ '\n' :: (indentChars lvl ++ (']' :: rest)))) by rw [hd, List.cons_append]]
      rw [skipWs_cons_not _ _ hws]
      simp only []
      rw [if_neg hrb]
      rw [show (c : Char) :: (t ++ (dumpArrItems xs (lvl + 1)
            ++ '\n' :: (indentChars lvl ++ (']' :: rest))))
          = dumpJ x (lvl + 1) ++ (dumpArrItems xs (lvl + 1)
            ++ '\n' :: (indentChars lvl ++ (']' :: rest))) by rw [hd, List.cons_append]]
      rw [Pf x (lvl + 1) _ (by omega) hwf.1 (followOk_arrItems xs (lvl + 1) _)]
      rw [show (x : JVal) :: xs = [x] ++ xs from rfl]
      exact Qf xs [x] (lvl + 1) lvl rest (by omega) hwf.2 hfol
  | jobj fs =>
    cases fs with
    | nil => rfl
    | cons f fs =>
      obtain ⟨k, v⟩ := f
      simp only [wfJ, wfFields, List.map_cons, Bool.and_eq_true] at hwf
      have hsb := dumpStrBody_length k.data
      simp only [dumpJ, dumpField, dumpStr, List.length_cons, List.length_append,
        indentChars_length] at hlen
      simp only [dumpJ, List.cons_append, List.append_assoc, List.nil_append]
      rw [parseVal.eq_2, skipWs_cons_not _ _ (by decide)]
      simp only []
      rw [if_pos trivial]
      rw [skipWs_cons_ws _ _ (by decide), skipWs_indent]
      simp only [dumpField, dumpStr, List.cons_append, List.append_assoc]
      rw [skipWs_cons_not _ _ (by decide)]
      simp only []
      rw [if_neg (by decide)]
      have hnd : nodupKeysB ((([] : List (String × JVal)) ++ (k, v) :: fs).map Prod.fst)
          = true := by
        simp only [List.nil_append, List.map_cons]
        exact hwf.1
      have hr := Rf k v fs [] (lvl + 1) lvl rest
        (by simp only [dumpField, dumpStr, List.length_append, List.length_cons]; omega)
        hwf.2.1 hwf.2.2 hnd hfol
      simp only [dumpField, dumpStr, List.cons_append, List.append_assoc,
        List.nil_append] at hr
      exact hr

theorem parse_dump_all : ∀ fuel : Nat,
    (∀ v lvl rest, (dumpJ v lvl).length < fuel → wfJ v = true → followOk rest = true →
      parseVal fuel (dumpJ v lvl ++ rest) = some (v, rest))
    ∧ (∀ xs acc l1 l2 rest, (dumpArrItems xs l1).length < fuel → wfList xs = true →
      followOk rest = true →
      parseArrItems fuel acc (dumpArrItems xs l1 ++ '\n' :: (indentChars l2 ++ ']' :: rest))
        = some (.jarr (acc ++ xs), rest))
    ∧ (∀ k v fs acc l1 l2 rest,
      (dumpField (k, v) l1).length + (dumpObjItems fs l1).length < fuel →
      wfJ v = true → wfFields fs = true →
      nodupKeysB ((acc ++ (k, v) :: fs).map Prod.fst) = true →
      followOk rest = true →
      parseObjItems fuel acc
        (dumpField (k, v) l1 ++ (dumpObjItems fs l1 ++ '\n' :: (indentChars l2 ++ cbChar :: rest)))
        = some (.jobj (acc ++ (k, v) :: fs), rest)) := by
  intro fuel
  induction fuel with
  | zero =>
    refine ⟨?_, ?_, ?_⟩
    · intro v lvl rest hlen _ _
      omega
    · intro xs acc l1 l2 rest hlen _ _
      omega
    · intro k v fs acc l1 l2 rest hlen _ _ _ _
      omega
  | succ f ih =>
    exact ⟨parseVal_step f ih.1 ih.2.1 ih.2.2, parseArr_step f ih.1 ih.2.1,
      parseObj_step f ih.1 ih.2.2⟩

theorem jsonLoads_dump (m : List (String × JVal)) (h : wfJ (.jobj m) = true) :
    jsonLoads (dumpJ (.jobj m) 0) = .ok (.jobj m) := by
  have hp := (parse_dump_all ((dumpJ (.jobj m) 0).length + 1)).1 (.jobj m) 0 []
    (by omega) h (by decide)
  rw [List.append_nil] at hp
  unfold jsonLoads
  rw [hp]
  rfl

theorem containsStr_false (l : List String) (x : String) :
    l.contains x = false ↔ ¬ x ∈ l := by
  rw [List.contains_eq_any_beq, List.any_eq_false]
  constructor
  · intro h hx
    have := h x hx
    simp at this
  · intro h y hy
    intro he
    rw [beq_iff_eq] at he
    subst he
    exact h hy

theorem mem_objSet_keys (acc : List (String × JVal)) (k : String) (v : JVal) (x : String)
    (h : x ∈ (objSet acc k v).map Prod.fst) : x ∈ acc.map Prod.fst ∨ x = k := by
  induction acc with
  | nil =>
    simp [objSet] at h
    exact Or.inr h
  | cons p rest ih =>
    obtain ⟨k', v'⟩ := p
    by_cases hk : k' = k
    · simp only [objSet, if_pos hk] at h
      simp only [List.map_cons] at h ⊢
      rcases List.mem_cons.mp h with h | h
      · exact Or.inr h
      · exact Or.inl (List.mem_cons_of_mem _ h)
    · simp only [objSet, if_neg hk] at h
      simp only [List.map_cons] at h ⊢
      rcases List.mem_cons.mp h with h | h
      · exact Or.inl (List.mem_cons.mpr (Or.inl h))
      · rcases ih h with h | h
        · exact Or.inl (List.mem_cons_of_mem _ h)
        · exact Or.inr h

theorem objSet_nodup (acc : List (String × JVal)) (k : String) (v : JVal)
    (h : nodupKeysB (acc.map Prod.fst) = true) :
    nodupKeysB ((objSet acc k v).map Prod.fst) = true := by
  induction acc with
  | nil => simp [objSet, nodupKeysB]
  | cons p rest ih =>
    obtain ⟨k', v'⟩ := p
    simp only [List.map_cons, nodupKeysB, Bool.and_eq_true, Bool.not_eq_true'] at h
    by_cases hk : k' = k
    · subst hk
      simp only [objSet, if_pos rfl, List.map_cons, nodupKeysB, Bool.and_eq_true,
        Bool.not_eq_true']
      exact h
    · simp only [objSet, if_neg hk, List.map_cons, nodupKeysB, Bool.and_eq_true,
        Bool.not_eq_true']
      refine ⟨?_, ih h.2⟩
      rw [containsStr_false]
      intro hmem
      rcases mem_objSet_keys rest k v k' hmem with hm | hm
      · rw [containsStr_false] at *
        exact (h.1) hm
      · exact hk hm

theorem objSet_wfFields (acc : List (String × JVal)) (k : String) (v : JVal)
    (hacc : wfFields acc = true) (hv : wfJ v = true) :
    wfFields (objSet acc k v) = true := by
  induction acc with
  | nil => simp [objSet, wfFields, hv]
  | cons p rest ih =>
    obtain ⟨k', v'⟩ := p
    simp only [wfFields, Bool.and_eq_true] at hacc
    by_cases hk : k' = k
    · simp only [objSet, if_pos hk, wfFields, Bool.and_eq_true]
      exact ⟨hv, hacc.2⟩
    · simp only [objSet, if_neg hk, wfFields, Bool.and_eq_true]
      exact ⟨hacc.1, ih hacc.2⟩

theorem wfList_append_one (acc : List JVal) (x : JVal) (h1 : wfList acc = true)
    (h2 : wfJ x = true) : wfList (acc ++ [x]) = true := by
  induction acc with
  | nil => simp [wfList, h2]
  | cons y rest ih =>
    simp only [wfList, Bool.and_eq_true] at h1
    simp only [List.cons_append, wfList, Bool.and_eq_true]
    exact ⟨h1.1, ih h1.2⟩

theorem parseNumber_shape (l : List Char) (v : JVal) (r : List Char)
    (h : parseNumber l = some (v, r)) : ∃ n, v = .jnum n := by
  unfold parseNumber at h
  split at h
  · exact absurd h (by simp)
  · split at h <;>
    · cases hp : parseNumAux _ with
      | none => rw [hp] at h; simp at h
      | some p => rw [hp] at h; simp at h; exact ⟨_, h.1.symm⟩

theorem parse_wf_all : ∀ fuel : Nat,
    (∀ l v r, parseVal fuel l = some (v, r) → wfJ v = true)
    ∧ (∀ acc l v r, wfList acc = true → parseArrItems fuel acc l = some (v, r) →
        wfJ v = true)
    ∧ (∀ acc l v r, nodupKeysB (acc.map Prod.fst) = true → wfFields acc = true →
        parseObjItems fuel acc l = some (v, r) → wfJ v = true) := by
  intro fuel
  induction fuel with
  | zero =>
    refine ⟨?_, ?_, ?_⟩
    · intro l v r h
      simp [parseVal] at h
    · intro acc l v r _ h
      simp [parseArrItems] at h
    · intro acc l v r _ _ h
      simp [parseObjItems] at h
  | succ f ih =>
    obtain ⟨ihP, ihQ, ihR⟩ := ih
    refine ⟨?_, ?_, ?_⟩
    · intro l v r h
      rw [parseVal.eq_2] at h
      cases hsk : skipWs l with
      | nil => rw [hsk] at h; exact absurd h (by simp)
      | cons c rest =>
        rw [hsk] at h
        simp only [] at h
        by_cases h1 : c = obChar
        · rw [if_pos h1] at h
          cases hsk2 : skipWs rest with
          | nil => rw [hsk2] at h; exact absurd h (by simp)
          | cons c2 r2 =>
            rw [hsk2] at h
            simp only [] at h
            by_cases h2 : c2 = cbChar
            · rw [if_pos h2] at h
              simp only [Option.some.injEq, Prod.mk.injEq] at h
              rw [← h.1]
              decide
            · rw [if_neg h2] at h
              exact ihR [] _ v r (by decide) (by decide) h
        · rw [if_neg h1] at h
          by_cases h2 : c = '['
          · rw [if_pos h2] at h
            cases hsk2 : skipWs rest with
            | nil => rw [hsk2] at h; exact absurd h (by simp)
            | cons c2 r2 =>
              rw [hsk2] at h
              simp only [] at h
              by_cases h3 : c2 = ']'
              · rw [if_pos h3] at h
                simp only [Option.some.injEq, Prod.mk.injEq] at h
                rw [← h.1]
                decide
              · rw [if_neg h3] at h
                cases hpv : parseVal f (c2 :: r2) with
                | none => rw [hpv] at h; exact absurd h (by simp)
                | some p =>
                  obtain ⟨v1, r3⟩ := p
                  rw [hpv] at h
                  simp only [] at h
                  refine ihQ [v1] r3 v r ?_ h
                  simp only [wfList, Bool.and_eq_true]
                  exact ⟨ihP _ _ _ hpv, trivial⟩
          · rw [if_neg h2] at h
            by_cases h3 : c = '"'
            · rw [if_pos h3] at h
              cases hps : parseStrBody (rest.length + 1) rest with
              | none => rw [hps] at h; exact absurd h (by simp)
              | some p =>
                obtain ⟨s, r2⟩ := p
                rw [hps] at h
                simp only [Option.some.injEq, Prod.mk.injEq] at h
                rw [← h.1]
                rfl
            · rw [if_neg h3] at h
              by_cases h4 : c = 't'
              · rw [if_pos h4] at h
                split at h
                · simp only [Option.some.injEq, Prod.mk.injEq] at h
                  rw [← h.1]
                  rfl
                · exact absurd h (by simp)
              · rw [if_neg h4] at h
                by_cases h5 : c = 'f'
                · rw [if_pos h5] at h
                  split at h
                  · simp only [Option.some.injEq, Prod.mk.injEq] at h
                    rw [← h.1]
                    rfl
                  · exact absurd h (by simp)
                · rw [if_neg h5] at h
                  by_cases h6 : c = 'n'
                  · rw [if_pos h6] at h
                    split at h
                    · simp only [Option.some.injEq, Prod.mk.injEq] at h
                      rw [← h.1]
                      rfl
                    · exact absurd h (by simp)
                  · rw [if_neg h6] at h
                    obtain ⟨n, hn⟩ := parseNumber_shape _ _ _ h
                    rw [hn]
                    rfl
    · intro acc l v r hacc h
      rw [parseArrItems.eq_2] at h
      cases hsk : skipWs l with
      | nil => rw [hsk] at h; exact absurd h (by simp)
      | cons c rest =>
        rw [hsk] at h
        simp only [] at h
        by_cases h1 : c = ']'
        · rw [if_pos h1] at h
          simp only [Option.some.injEq, Prod.mk.injEq] at h
          rw [← h.1]
          simp only [wfJ]
          exact hacc
        · rw [if_neg h1] at h
          by_cases h2 : c = ','
          · rw [if_pos h2] at h
            cases hpv : parseVal f rest with
            | none => rw [hpv] at h; exact absurd h (by simp)
            | some p =>
              obtain ⟨v1, r2⟩ := p
              rw [hpv] at h
              simp only [] at h
              exact ihQ (acc ++ [v1]) r2 v r
                (wfList_append_one acc v1 hacc (ihP _ _ _ hpv)) h
          · rw [if_neg h2] at h
            exact absurd h (by simp)
    · intro acc l v r hnd hacc h
      rw [parseObjItems.eq_def] at h
      simp only [] at h
      split at h
      · rename_i r1
        cases hps : parseStrBody (r1.length + 1) r1 with
        | none => rw [hps] at h; exact absurd h (by simp)
        | some p =>
          obtain ⟨k, r2⟩ := p
          rw [hps] at h
          simp only [] at h
          split at h
          · rename_i r3 hsk3
            cases hpv : parseVal f r3 with
            | none => rw [hpv] at h; exact absurd h (by simp)
            | some q =>
              obtain ⟨v1, r4⟩ := q
              rw [hpv] at h
              simp only [] at h
              cases hsk4 : skipWs r4 with
              | nil => rw [hsk4] at h; exact absurd h (by simp)
              | cons c r5 =>
                rw [hsk4] at h
                simp only [] at h
                by_cases hc : c = cbChar
                · rw [if_pos hc] at h
                  simp only [Option.some.injEq, Prod.mk.injEq] at h
                  rw [← h.1]
                  simp only [wfJ, Bool.and_eq_true]
                  exact ⟨objSet_nodup acc (String.mk k) v1 hnd,
                    objSet_wfFields acc (String.mk k) v1 hacc (ihP _ _ _ hpv)⟩
                · rw [if_neg hc] at h
                  by_cases hc2 : c = ','
                  · rw [if_pos hc2] at h
                    exact ihR _ _ v r (objSet_nodup acc (String.mk k) v1 hnd)
                      (objSet_wfFields acc (String.mk k) v1 hacc (ihP _ _ _ hpv)) h
                  · rw [if_neg hc2] at h
                    exact absurd h (by simp)
          · exact absurd h (by simp)
      · exact absurd h (by simp)

/-- C8: `save_user_data` followed by `load_user_data` returns the saved
mapping unchanged, for every mapping whose objects (at any depth) have
distinct keys — which every Python dict has; and `save(load())` leaves the
stored mapping unchanged: whatever mapping `load_user_data` read from the
credential file, saving it and loading again returns that same mapping. -/
theorem c8_round_trip :
    (∀ m : List (String × JVal), wfJ (.jobj m) = true →
      load_user_data (save_user_data m) = .ok (.jobj m))
    ∧ (∀ (fs : Option (List Char)) (m : List (String × JVal)),
      load_user_data fs = .ok (.jobj m) →
      load_user_data (save_user_data m) = .ok (.jobj m)) := by
  have main : ∀ m : List (String × JVal), wfJ (.jobj m) = true →
      load_user_data (save_user_data m) = .ok (.jobj m) := by
    intro m h
    unfold load_user_data save_user_data
    exact jsonLoads_dump m h
  refine ⟨main, ?_⟩
  intro fs m h
  apply main
  cases fs with
  | none =>
    unfold load_user_data at h
    simp only [Except.ok.injEq, JVal.jobj.injEq] at h
    rw [← h]
    decide
  | some text =>
    unfold load_user_data jsonLoads at h
    simp only [] at h
    cases hpv : parseVal (text.length + 1) text with
    | none => rw [hpv] at h; exact absurd h (by simp)
    | some p =>
      obtain ⟨v, rest⟩ := p
      rw [hpv] at h
      simp only [] at h
      by_cases he : (skipWs rest).isEmpty = true
      · rw [if_pos he] at h
        simp only [Except.ok.injEq] at h
        rw [← h]
        exact (parse_wf_all (text.length + 1)).1 _ _ _ hpv
      · rw [if_neg he] at h
        exact absurd h (by simp)

theorem c8_round_trip_witness :
    load_user_data (save_user_data [("facebook", .jobj [("pages", .jarr [])])])
      = .ok (.jobj [("facebook", .jobj [("pages", .jarr [])])]) :=
  c8_round_trip.1 _ (by decide)
